import Mathlib

/-!
Shallow embedding of `src/ALLCools/mcds/base_ds.py` (ALLCools BaseDS core):
the per-chromosome positional dataset `BaseDSChrom`, the `Codebook` context
matching, interval expansion `_regions_to_pos`, and the region aggregation
`get_region_ds`.

Modelling conventions:
* An xarray `Dataset` restricted to what the claims touch is `DS α`:
  the `pos` dimension either has no explicit coordinate (`posCoord = none`,
  the state of a freshly opened continuous dataset, where `sel` falls back
  to positional indexing) or an explicit integer coordinate
  (`posCoord = some ps`, the state after `_fetch_positions` assigns
  `obj.coords["pos"] = positions`, where `sel` is label based).
* `rows : List α` is the per-position content (data and codebook variables
  are sliced together along `pos`, so they live in one row value).
* The attrs dict `{continuous, offset, chrom_size, c_pos, context_size}` is
  the `Attrs` structure; `continuous`/`offset` are `Option`s because the
  Python code reads them with `attrs.get(..., default)` and pops `offset`.
* Machine integers: positions are `Nat`s; the `uint32` casts in the source
  do not wrap for in-chromosome coordinates (`< 2^32`), which every claim's
  hypotheses guarantee, so no `% 2^32` is inserted.  Index arithmetic
  `positions - offset` is done in `Int` as in numpy.
* Fallible operations return `Except String`; Python exceptions
  (ValueError, AssertionError, KeyError, IndexError) become `.error` with a
  message echoing the source.
-/

/-- The attribute dictionary of a `BaseDSChrom` / `Codebook`, restricted to the
keys the modelled operations read or write: `continuous` and `offset` are
optional entries (read via `attrs.get` with defaults, `offset` is popped by the
`continuous` setter); `chrom_size`, `c_pos`, `context_size` are required
entries set at open time. -/
structure Attrs where
  continuous : Option Bool := none
  offset : Option Nat := none
  chrom_size : Nat := 0
  c_pos : Nat := 0
  context_size : Nat := 0
deriving DecidableEq, Repr, Inhabited

/-- Per-position content of the dataset: the `data` variable's counts at this
position flattened over the (mc_type, sample) axes, and the `codebook`
variable's value per `mc_type` label (tri-state -1/0/1, stored as `Int`). -/
structure Cell where
  data : List Int := []
  codebook : List Int := []
deriving DecidableEq, Repr, Inhabited

/-- `BaseDSChrom` value: `pos` coordinate state, per-position rows, the
`mc_type` coordinate labels (a separate dimension, untouched by `pos`
selection), and the attrs dict. -/
structure DS (α : Type) where
  posCoord : Option (List Nat) := none
  rows : List α := []
  mcTypes : List String := []
  attrs : Attrs := {}
deriving DecidableEq, Repr, Inhabited

namespace DS

/-- `self.continuous` property: `attrs.get("continuous", False)`. -/
def continuous (ds : DS α) : Bool := ds.attrs.continuous.getD false

/-- `self.offset` property: `attrs.get("offset", 0)`. -/
def offset (ds : DS α) : Nat := ds.attrs.offset.getD 0

/-- `self.get_index("pos")`: the explicit coordinate if present, otherwise the
default `RangeIndex(len)` xarray provides for an unindexed dimension. -/
def posIndex (ds : DS α) : List Nat :=
  ds.posCoord.getD (List.range ds.rows.length)

/-- The absolute genome positions held by a dataset: `position_offset + i` for
a continuous dataset (implicit arithmetic position axis), the explicit `pos`
coordinate for a sparse one (whose offset is 0). -/
def genomicPositions (ds : DS α) : List Nat :=
  match ds.posCoord with
  | none => (List.range ds.rows.length).map (· + ds.offset)
  | some ps => ps

/-- A position lies in the dataset's current window: inside the continuous
range for an implicitly indexed dataset, a member of the explicit coordinate
otherwise. -/
def window (ds : DS α) (p : Nat) : Prop :=
  match ds.posCoord with
  | none => ds.offset ≤ p ∧ p < ds.offset + ds.rows.length
  | some ps => p ∈ ps

instance (ds : DS α) (p : Nat) : Decidable (ds.window p) := by
  unfold window; cases ds.posCoord <;> infer_instance

end DS

/-- Python slice semantics `l[a:b]` for possibly negative `Int` bounds:
negative bounds count from the end, then the slice is the half-open clamped
range. -/
def pySlice (l : List α) (a b : Int) : List α :=
  let n : Int := l.length
  let lo : Int := if a < 0 then max (n + a) 0 else min a n
  let hi : Int := if b < 0 then max (n + b) 0 else min b n
  (l.drop lo.toNat).take (hi.toNat - lo.toNat)

/-- `self.sel(pos=slice(a, b))` on the `pos` dimension: positional (python
slice, half-open) when the dimension has no coordinate, label based (both ends
inclusive, pandas `.loc` style) when it has one. -/
def sliceSel (pc : Option (List Nat)) (rows : List α) (a b : Int) :
    Option (List Nat) × List α :=
  match pc with
  | none => (none, pySlice rows a b)
  | some ps =>
      let keep := (ps.zip rows).filter fun t => a ≤ (t.1 : Int) && (t.1 : Int) ≤ b
      (some (keep.map (·.1)), keep.map (·.2))

/-- `positions - self.offset` on a sorted uint32 position array: elementwise
integer subtraction of the offset. -/
def subOffset (offset : Nat) (positions : List Nat) : List Int :=
  positions.map fun (p : Nat) => (p : Int) - (offset : Int)

/-- One positional lookup of the numpy fancy-indexing path (IndexError when
the index is out of bounds). -/
def idxGet (rows : List α) (i : Int) : Except String α :=
  if h : 0 ≤ i ∧ i.toNat < rows.length then
    Except.ok (rows.get ⟨i.toNat, h.2⟩)
  else
    Except.error "IndexError: index out of bounds for axis pos"

/-- One label lookup of the pandas `get_indexer` path: the first entry of the
index whose label equals `i` (KeyError when the label is absent). -/
def labelGet (ps : List Nat) (rows : List α) (i : Int) : Except String (Nat × α) :=
  match (ps.zip rows).find? (fun t => (t.1 : Int) == i) with
  | some t => Except.ok t
  | none => Except.error "KeyError: not all values found in index pos"

/-- `self.sel(pos=idxs)` with an integer array: positional gather
(numpy fancy indexing, IndexError out of bounds) when the dimension has no
coordinate; label lookup (pandas `get_indexer`: requires a unique index,
KeyError on a missing label) when it has one. -/
def gatherIdx (pc : Option (List Nat)) (rows : List α) (idxs : List Int) :
    Except String (Option (List Nat) × List α) :=
  match pc with
  | none => do
      let rw ← idxs.mapM (idxGet rows)
      Except.ok (none, rw)
  | some ps =>
      if ps.Nodup then do
        let sel ← idxs.mapM (labelGet ps rows)
        Except.ok (some (sel.map (·.1)), sel.map (·.2))
      else
        Except.error "InvalidIndexError: reindexing only valid with uniquely valued Index objects"

/-- `_regions_to_pos(regions)`: allocate a zero buffer of size
`sum(end - start)` and write the run `start, start+1, ..., end-1` of each
interval into the next contiguous slice (the numba loop).  Inputs are
`uint32` in the source; the claims' `start < end` hypotheses keep the `Nat`
subtraction and `np.arange` in agreement with the source. -/
def _regions_to_pos (regions : List (Nat × Nat)) : List Nat :=
  let total := (regions.map fun r => r.2 - r.1).sum
  let buf := List.replicate total 0
  (regions.foldl
    (fun (acc : List Nat × Nat) r =>
      let length := r.2 - r.1
      let vals := List.range' r.1 length
      (acc.1.take acc.2 ++ vals ++ acc.1.drop (acc.2 + length), acc.2 + length))
    (buf, 0)).1

/-- Modelled from the spec: `parse_mc_pattern` lives in `ALLCools.utilities`,
which is not part of the given sources.  Per the spec it "expands `pattern`
into the set of concrete context labels it denotes (a pattern may use
wildcard-style nucleotide codes)" — the standard IUPAC nucleotide codes. -/
def iupacChoices : Char → List Char
  | 'A' => ['A'] | 'C' => ['C'] | 'G' => ['G'] | 'T' => ['T']
  | 'R' => ['A', 'G'] | 'Y' => ['C', 'T'] | 'S' => ['C', 'G'] | 'W' => ['A', 'T']
  | 'K' => ['G', 'T'] | 'M' => ['A', 'C']
  | 'B' => ['C', 'G', 'T'] | 'D' => ['A', 'G', 'T'] | 'H' => ['A', 'C', 'T']
  | 'V' => ['A', 'C', 'G'] | 'N' => ['A', 'C', 'G', 'T']
  | c => [c]

/-- Modelled from the spec: the set of concrete context labels a wildcard
pattern denotes — the cartesian product of each character's IUPAC choices. -/
def parse_mc_pattern (pattern : String) : List String :=
  ((pattern.toList.map iupacChoices).foldr
    (fun cs acc => cs.flatMap fun c => acc.map fun s => c :: s) [[]]).map
    fun l => String.mk l

/-- Python `str.upper()` on a single ASCII character (nucleotide codes are
ASCII letters), written as an explicit table so it reduces in the kernel. -/
def charUpper : Char → Char
  | 'a' => 'A' | 'b' => 'B' | 'c' => 'C' | 'd' => 'D' | 'e' => 'E'
  | 'f' => 'F' | 'g' => 'G' | 'h' => 'H' | 'i' => 'I' | 'j' => 'J'
  | 'k' => 'K' | 'l' => 'L' | 'm' => 'M' | 'n' => 'N' | 'o' => 'O'
  | 'p' => 'P' | 'q' => 'Q' | 'r' => 'R' | 's' => 'S' | 't' => 'T'
  | 'u' => 'U' | 'v' => 'V' | 'w' => 'W' | 'x' => 'X' | 'y' => 'Y'
  | 'z' => 'Z'
  | c => c

/-- Python `mc_pattern.upper()`. -/
def pyUpper (s : String) : String :=
  String.mk (s.toList.map charUpper)

/-- `Codebook._validate_mc_pattern`: uppercase, check the length against
`context_size` and that the `c_pos` character is a cytosine (an out-of-range
`c_pos` is also a failure, an IndexError in the source). -/
def _validate_mc_pattern (context_size c_pos : Nat) (mc_pattern : String) :
    Except String String :=
  let p := pyUpper mc_pattern
  if p.length ≠ context_size then
    Except.error "the length of mc_pattern is not equal to context_size"
  else if p.toList.getD c_pos ' ' ≠ 'C' then
    Except.error "the c_pos position in mc_pattern is not a cytosine"
  else
    Except.ok p

/-- The codebook values of the `mc_type` rows selected by the pattern, at one
position: `self.sel(mc_type=judge)` where `judge = mc_type.isin(parse_mc_pattern(p))`. -/
def selectedCodebook (mcTypes : List String) (selected : List String)
    (cbRow : List Int) : List Int :=
  ((mcTypes.zip cbRow).filter fun t => t.1 ∈ selected).map (·.2)

/-- `Codebook.get_mc_pos_bool(mc_pattern)`: validate the pattern, select the
`mc_type` rows it denotes, sum across `mc_type` and convert to bool (`-1`,
`1` are True, `0` is False). -/
def get_mc_pos_bool (mcTypes : List String) (cbRows : List (List Int))
    (context_size c_pos : Nat) (mc_pattern : String) :
    Except String (List Bool) := do
  let p ← _validate_mc_pattern context_size c_pos mc_pattern
  let selected := parse_mc_pattern p
  Except.ok (cbRows.map fun row => (selectedCodebook mcTypes selected row).sum ≠ 0)

/-- `Codebook.get_mc_pos(mc_pattern, offset)`: positions of the `pos` index
where `get_mc_pos_bool` is true, shifted by `offset`. -/
def get_mc_pos (mcTypes : List String) (cbRows : List (List Int))
    (posIdx : List Nat) (context_size c_pos : Nat) (mc_pattern : String)
    (offset : Nat) : Except String (List Nat) := do
  let b ← get_mc_pos_bool mcTypes cbRows context_size c_pos mc_pattern
  Except.ok ((((posIdx.zip b).filter (·.2)).map (·.1)).map (· + offset))

namespace DS

/-- `self.codebook.get_mc_pos(pattern, offset)` on a `DS Cell`: the codebook
variable shares the `pos` index of the dataset and carries the dataset's
`c_pos` / `context_size` attrs. -/
def getMcPos (ds : DS Cell) (mc_pattern : String) (offset : Nat) :
    Except String (List Nat) :=
  get_mc_pos ds.mcTypes (ds.rows.map (·.codebook)) ds.posIndex
    ds.attrs.context_size ds.attrs.c_pos mc_pattern offset

/-- The continuous branch of `BaseDSChrom.fetch`: an arithmetic slice
`sel(pos=slice(start - offset, end - offset))`, attrs copied, then
`attrs["offset"] = start`. -/
def fetchSliceCont (ds : DS α) (start stop : Nat) : DS α :=
  let s := sliceSel ds.posCoord ds.rows
    ((start : Int) - (ds.offset : Int)) ((stop : Int) - (ds.offset : Int))
  { ds with posCoord := s.1, rows := s.2,
            attrs := { ds.attrs with offset := some start } }

/-- `BaseDSChrom._fetch_positions(positions)`: sort, `sel(pos=positions -
offset)`, copy attrs, set `continuous = False` (which pops `offset`), and
overwrite the `pos` coordinate with the requested absolute positions. -/
def _fetchPositions (ds : DS α) (positions : List Nat) :
    Except String (DS α) := do
  let positions := positions.insertionSort (· ≤ ·)
  let s ← gatherIdx ds.posCoord ds.rows (subOffset ds.offset positions)
  Except.ok { ds with
    posCoord := some positions, rows := s.2,
    attrs := { ds.attrs with
      continuous := some false,
      offset := none } }

/-- `BaseDSChrom.fetch_positions(positions)`: on a continuous dataset first
pre-fetch the covering range `fetch(min, max + 1)` (`min`/`max` of an empty
iterable raise a ValueError), which on a continuous dataset reduces to
`fetchSliceCont` (the `start < end` assert holds as `min < max + 1`); then
select the exact positions. -/
def fetchPositions (ds : DS α) (positions : List Nat) :
    Except String (DS α) :=
  if ds.continuous then
    match positions with
    | [] => Except.error "ValueError: min() arg is an empty sequence"
    | p :: ps =>
        let pos_min := ps.foldl Nat.min p
        let pos_max := ps.foldl Nat.max p
        _fetchPositions (ds.fetchSliceCont pos_min (pos_max + 1)) (p :: ps)
  else
    ds._fetchPositions positions

/-- `BaseDSChrom.fetch_regions(regions)`: convert to a `(N, 2)` uint32 array
(an empty list has no second axis — IndexError), expand to positions,
delegate to `fetch_positions`, and assert the result is sparse with offset
0. -/
def fetchRegions (ds : DS α) (regions : List (Nat × Nat)) :
    Except String (DS α) :=
  if regions.isEmpty then
    Except.error "IndexError: tuple index out of range"
  else
    (ds.fetchPositions (_regions_to_pos regions)).bind fun obj =>
      if obj.continuous then
        Except.error "AssertionError: obj.continuous is False"
      else if obj.offset ≠ 0 then
        Except.error "AssertionError: obj.offset == 0"
      else Except.ok obj

/-- `BaseDSChrom.fetch(start, end)`: both ends `None` is an error; defaults
are `0` and `chrom_size`; `start < end` is asserted; a continuous dataset is
sliced arithmetically, a sparse one delegates to `fetch_regions([(start,
end)])`. -/
def fetch (ds : DS α) (start? stop? : Option Nat) : Except String (DS α) :=
  if start?.isSome || stop?.isSome then
    let start := start?.getD 0
    let stop := stop?.getD ds.attrs.chrom_size
    if start < stop then
      if ds.continuous then Except.ok (ds.fetchSliceCont start stop)
      else ds.fetchRegions [(start, stop)]
    else Except.error "AssertionError: start must be less than end."
  else Except.error "ValueError: start and end cannot be both None."

/-- `BaseDSChrom.select_mc_type(pattern)`: resolve the pattern through the
codebook with `offset = self.offset`, fetch those positions, assert the
result is sparse. -/
def selectMcType (ds : DS Cell) (pattern : String) : Except String (DS Cell) :=
  (ds.getMcPos pattern ds.offset).bind fun pattern_pos =>
    (ds.fetchPositions pattern_pos).bind fun res =>
      if res.continuous then
        Except.error "AssertionError: ds.continuous is False"
      else Except.ok res

end DS

/-- The 2-column `(start, end)` regions dataframe passed to `get_region_ds`:
row index labels (the output region names, modelled as `Nat`), the index's
name, and the rows.  (The 3-column variant is first filtered to the current
chromosome and its first column dropped, reducing it to this shape.) -/
structure RegionsDF where
  indexName : Option String := none
  rows : List (Nat × Nat × Nat) := []
deriving DecidableEq, Repr, Inhabited

/-- The aggregated result of `get_region_ds`: the (possibly renamed)
`pos_bins` dimension name, its labels, and the summed data per label. -/
structure RegionDS where
  dimName : String := "pos_bins"
  labels : List Nat := []
  rowsData : List (List Int) := []
deriving DecidableEq, Repr, Inhabited

/-- The bin-edge walk of `get_region_ds` when `bin_size` is given: multiples
of `bin_size` below `chrom_size`, keeping those inside
`[region_start, region_end]`; `bins[-1]` on an empty list is an IndexError;
then the last edge is extended to `region_end` and the first lowered to
`region_start` when misaligned. -/
def binEdges (chrom_size bin_size region_start region_end : Nat) :
    Except String (List Nat) :=
  let nmult := (chrom_size + bin_size - 1) / bin_size
  let bins0 := ((List.range nmult).map (· * bin_size)).filter
    fun i => region_start ≤ i && i ≤ region_end
  match bins0.getLast? with
  | none => Except.error "IndexError: list index out of range"
  | some lastEdge =>
      let bins1 := if lastEdge < region_end then bins0 ++ [region_end] else bins0
      let bins2 :=
        match bins1.head? with
        | some h => if region_start < h then region_start :: bins1 else bins1
        | none => bins1
      Except.ok bins2

/-- pandas `cut` requires strictly increasing bin edges; the check, written
as a Bool recursion. -/
def binsMonotonic : List Nat → Bool
  | [] => true
  | [_] => true
  | a :: b :: t => a < b && binsMonotonic (b :: t)

/-- Membership of a position in bin `j` of the edge list, pandas
`cut(..., right=True, include_lowest=True)`: bin 0 is
`[e 0, e 1]`, bin `j > 0` is `(e j, e (j+1)]`. -/
def inBin (bins : List Nat) (j : Nat) (p : Nat) : Bool :=
  if j = 0 then bins.getD 0 0 ≤ p && p ≤ bins.getD 1 0
  else bins.getD j 0 < p && p ≤ bins.getD (j + 1) 0

/-- Elementwise sum of the data rows of a group (reduction over the `pos`
dimension of equally shaped count arrays). -/
def sumCells : List (List Int) → List Int
  | [] => []
  | h :: t => t.foldl (fun a b => a.zipWith (· + ·) b) h

/-- `groupby_bins(group="pos", bins, right=True, labels,
include_lowest=True).sum(dim="pos")`: positions are assigned to bins, bins
with no members are dropped, the rest are summed in bin order and labelled
with the caller's labels. -/
def groupbyBinsSum (bins labels : List Nat) (ps : List Nat)
    (rowsData : List (List Int)) : List (Nat × List Int) :=
  (List.range labels.length).filterMap fun j =>
    let members := ((ps.zip rowsData).filter fun t => inBin bins j t.1).map (·.2)
    if members.isEmpty then none
    else some (labels.getD j 0, sumCells members)

/-- `min` of a pandas index plus the dataset offset
(`all_idx.min() + self.offset`); pandas returns `nan` on an empty index,
modelled as an error. -/
def idxMin (posIdx : List Nat) (offset : Nat) : Except String Nat :=
  match posIdx with
  | [] => Except.error "ValueError: min of an empty index"
  | x :: xs => Except.ok (xs.foldl Nat.min x + offset)

/-- `max` of a pandas index plus the dataset offset. -/
def idxMax (posIdx : List Nat) (offset : Nat) : Except String Nat :=
  match posIdx with
  | [] => Except.error "ValueError: max of an empty index"
  | x :: xs => Except.ok (xs.foldl Nat.max x + offset)

/-- The `bin_size` preamble of `get_region_ds`: `assert bin_size > 1`, then
the `region_start`/`region_end` defaults from the position index. -/
def regionStartEnd (posIdx : List Nat) (offset : Nat) (bin_size? : Option Nat)
    (region_start? region_end? : Option Nat) :
    Except String (Option (Nat × Nat)) :=
  match bin_size? with
  | some b =>
      if ¬ 1 < b then
        Except.error "AssertionError: bin_size must be greater than 1."
      else
        (match region_start? with
         | some v => Except.ok v
         | none => idxMin posIdx offset).bind fun rs =>
        (match region_end? with
         | some v => Except.ok v
         | none => idxMax posIdx offset).bind fun re =>
        Except.ok (some (rs, re))
  | none => Except.ok none

/-- The `regions` preamble of `get_region_ds`:
`assert regions.shape[0] > 0`. -/
def regionsNonEmptyCheck : Option RegionsDF → Except String Unit
  | some df =>
      if df.rows.isEmpty then
        Except.error "AssertionError: regions must have at least one row."
      else Except.ok ()
  | none => Except.ok ()

/-- The intersection step of `get_region_ds` when `regions` is given:
the source calls `_regions_to_pos(regions=regions)` with the pandas
DataFrame itself, but `_regions_to_pos` is numba-`@njit` compiled and
nopython mode cannot type a DataFrame, so the call raises a `TypingError`
before `pos_idx.intersection(region_pos_idx)` can run — this step fails
whenever `regions` is supplied.  Without `regions` it is the identity. -/
def intersectRegions (regions? : Option RegionsDF) (pos_idx : List Nat) :
    Except String (List Nat) :=
  match regions? with
  | some _ =>
      Except.error "TypingError: cannot determine Numba type of pandas DataFrame passed to _regions_to_pos"
  | none => Except.ok pos_idx

/-- The bins / labels / dimension-name construction of `get_region_ds`:
regions take precedence (`starts ++ [last end]`, index labels, index name);
otherwise the `bin_size` walk over the chromosome. -/
def binsAndLabels (regions? : Option RegionsDF) (bin_size? : Option Nat)
    (startEnd? : Option (Nat × Nat)) (region_name? : Option String)
    (chrom_size : Nat) :
    Except String (List Nat × List Nat × Option String) :=
  match regions? with
  | some df =>
      Except.ok
        (df.rows.map (fun r => r.2.1) ++ [((df.rows.getLast?).map (·.2.2)).getD 0],
         df.rows.map (·.1), df.indexName)
  | none =>
      match bin_size?, startEnd? with
      | some b, some se =>
          (binEdges chrom_size b se.1 se.2).bind fun bins =>
            Except.ok (bins, bins.dropLast, region_name?)
      | _, _ => Except.error "unreachable: bin_size is not None here"

/-- The final aggregation of `get_region_ds`: the zero-filled reindex for an
empty candidate set (`fill_value=0`, zero rows shaped like the data), or
`groupby_bins(..., right=True, include_lowest=True).sum()` (pandas `cut`
demands strictly increasing bin edges; bins with no members are dropped).
The trailing `fillna(0)` is a no-op on integer sums. -/
def aggregateRegion (pos_idx bins labels : List Nat) (dimName : String)
    (basePos : List Nat) (baseData : List (List Int)) (zeroLen : Nat) :
    Except String RegionDS :=
  if pos_idx.isEmpty then
    Except.ok { dimName := dimName, labels := labels,
                rowsData := labels.map fun _ => List.replicate zeroLen 0 }
  else
    if binsMonotonic bins then
      let grouped := groupbyBinsSum bins labels basePos baseData
      Except.ok { dimName := dimName, labels := grouped.map (·.1),
                  rowsData := grouped.map (·.2) }
    else
      Except.error "ValueError: bins must increase monotonically."

namespace DS

/-- `BaseDSChrom.get_region_ds(mc_type, bin_size, regions, region_name,
region_start, region_end)`, in the source's effect order: the both-`None`
check; `assert bin_size > 1` and the `region_start`/`region_end` defaults
when `bin_size` is given; the non-empty check when `regions` is given;
pattern matching through the codebook; intersection with the expanded
regions; `fetch_positions`; bin and label construction; and the final
aggregation. -/
def getRegionDS (ds : DS Cell) (mc_type : String) (bin_size? : Option Nat)
    (regions? : Option RegionsDF) (region_name? : Option String)
    (region_start? region_end? : Option Nat) : Except String RegionDS :=
  if bin_size?.isNone && regions?.isNone then
    Except.error "ValueError: One of bin_size or regions must be specified."
  else
    (regionStartEnd ds.posIndex ds.offset bin_size?
        region_start? region_end?).bind fun startEnd? =>
    (regionsNonEmptyCheck regions?).bind fun _ =>
    (ds.getMcPos mc_type ds.offset).bind fun pos_idx0 =>
    (intersectRegions regions? pos_idx0).bind fun pos_idx =>
    (ds.fetchPositions pos_idx).bind fun base =>
    (binsAndLabels regions? bin_size? startEnd? region_name?
        ds.attrs.chrom_size).bind fun bl =>
    let dimName := match bl.2.2 with
      | some n => n
      | none => "pos_bins"
    aggregateRegion pos_idx bl.1 bl.2.1 dimName base.posIndex
      (base.rows.map (·.data))
      (((ds.rows.head?).map fun c => c.data.length).getD 0)

end DS

/-!
The `Alias` embedding makes the Python attribute-dictionary aliasing
explicit, for the frame property: `xarray.Dataset.sel` returns a new dataset
value whose `attrs` is the *same* dict object as the source's, so the
`obj.attrs = obj.attrs.copy()` lines in `fetch` and `_fetch_positions` are
what protects the source from the subsequent attribute writes.  Attribute
dicts live in a store (`List Attrs`), datasets hold a reference (`aref`)
into it; `attrs.copy()` appends a copy and moves the reference; attribute
writes update the store at the dataset's reference. -/

namespace Alias

/-- The heap of attribute dictionaries; a dataset's `aref` indexes into it. -/
abbrev Store := List Attrs

/-- Read the attrs dict behind a reference. -/
def Store.getA (st : Store) (i : Nat) : Attrs := st.getD i {}

/-- `obj.attrs = obj.attrs.copy()`: append a copy of the dict, return the new
store and the fresh reference. -/
def Store.copyAttrs (st : Store) (i : Nat) : Store × Nat :=
  (st ++ [st.getA i], st.length)

/-- A `BaseDSChrom` value in the aliasing embedding: coordinate and rows are
plain values, the attrs dict is held by reference. -/
structure DSR (α : Type) where
  posCoord : Option (List Nat) := none
  rows : List α := []
  mcTypes : List String := []
  aref : Nat := 0
deriving DecidableEq, Repr, Inhabited

/-- `self.continuous` read through the store. -/
def DSR.continuousS (ds : DSR α) (st : Store) : Bool :=
  ((st.getA ds.aref).continuous).getD false

/-- `self.offset` read through the store. -/
def DSR.offsetS (ds : DSR α) (st : Store) : Nat :=
  ((st.getA ds.aref).offset).getD 0

/-- `self.get_index("pos")` in the aliasing embedding. -/
def DSR.posIndexS (ds : DSR α) : List Nat :=
  ds.posCoord.getD (List.range ds.rows.length)

/-- Continuous branch of `fetch` with explicit attrs aliasing: `sel` shares
the source's attrs dict, then the dict is copied and `attrs["offset"] =
start` is written to the copy. -/
def fetchSliceContS (ds : DSR α) (start stop : Nat) (st : Store) :
    DSR α × Store :=
  let s := sliceSel ds.posCoord ds.rows
    ((start : Int) - (ds.offsetS st : Int)) ((stop : Int) - (ds.offsetS st : Int))
  let obj : DSR α := { ds with posCoord := s.1, rows := s.2 }
  let cp := st.copyAttrs obj.aref
  let st2 := cp.1.set cp.2 { cp.1.getA cp.2 with offset := some start }
  ({ obj with aref := cp.2 }, st2)

/-- `_fetch_positions` with explicit attrs aliasing: `sel` shares the attrs
dict, the dict is copied, and the `continuous = False` setter (which also
pops `offset`) is written to the copy. -/
def _fetchPositionsS (ds : DSR α) (positions : List Nat) (st : Store) :
    Except String (DSR α × Store) := do
  let positions := positions.insertionSort (· ≤ ·)
  let s ← gatherIdx ds.posCoord ds.rows (subOffset (ds.offsetS st) positions)
  let cp := st.copyAttrs ds.aref
  let st2 := cp.1.set cp.2 { cp.1.getA cp.2 with
    continuous := some false,
    offset := none }
  Except.ok ({ ds with posCoord := some positions, rows := s.2, aref := cp.2 }, st2)

/-- `fetch_positions` with explicit attrs aliasing. -/
def fetchPositionsS (ds : DSR α) (positions : List Nat) (st : Store) :
    Except String (DSR α × Store) :=
  if ds.continuousS st then
    match positions with
    | [] => Except.error "ValueError: min() arg is an empty sequence"
    | p :: ps =>
        let pos_min := ps.foldl Nat.min p
        let pos_max := ps.foldl Nat.max p
        let pre := fetchSliceContS ds pos_min (pos_max + 1) st
        _fetchPositionsS pre.1 (p :: ps) pre.2
  else
    _fetchPositionsS ds positions st

/-- `fetch_regions` with explicit attrs aliasing. -/
def fetchRegionsS (ds : DSR α) (regions : List (Nat × Nat)) (st : Store) :
    Except String (DSR α × Store) :=
  if regions.isEmpty then
    Except.error "IndexError: tuple index out of range"
  else
    (fetchPositionsS ds (_regions_to_pos regions) st).bind fun r =>
      if r.1.continuousS r.2 then
        Except.error "AssertionError: obj.continuous is False"
      else if r.1.offsetS r.2 ≠ 0 then
        Except.error "AssertionError: obj.offset == 0"
      else Except.ok r

/-- `fetch` with explicit attrs aliasing. -/
def fetchS (ds : DSR α) (start? stop? : Option Nat) (st : Store) :
    Except String (DSR α × Store) :=
  if start?.isSome || stop?.isSome then
    let start := start?.getD 0
    let stop := stop?.getD (st.getA ds.aref).chrom_size
    if start < stop then
      if ds.continuousS st then Except.ok (fetchSliceContS ds start stop st)
      else fetchRegionsS ds [(start, stop)] st
    else Except.error "AssertionError: start must be less than end."
  else Except.error "ValueError: start and end cannot be both None."

/-- `select_mc_type` with explicit attrs aliasing: the codebook read
(`get_mc_pos`) only reads attrs, the attribute writes happen inside
`fetch_positions`. -/
def selectMcTypeS (ds : DSR Cell) (pattern : String) (st : Store) :
    Except String (DSR Cell × Store) :=
  (get_mc_pos ds.mcTypes (ds.rows.map (·.codebook)) ds.posIndexS
    (st.getA ds.aref).context_size (st.getA ds.aref).c_pos
    pattern (ds.offsetS st)).bind fun pattern_pos =>
    (fetchPositionsS ds pattern_pos st).bind fun r =>
      if r.1.continuousS r.2 then
        Except.error "AssertionError: ds.continuous is False"
      else Except.ok r

/-- `get_region_ds` with explicit attrs aliasing: attribute reads go through
the store, the only attribute writes happen inside `fetch_positions`; the
binning and summing build fresh values, leaving every existing attrs dict
untouched. -/
def getRegionDSS (ds : DSR Cell) (mc_type : String) (bin_size? : Option Nat)
    (regions? : Option RegionsDF) (region_name? : Option String)
    (region_start? region_end? : Option Nat) (st : Store) :
    Except String (RegionDS × Store) :=
  if bin_size?.isNone && regions?.isNone then
    Except.error "ValueError: One of bin_size or regions must be specified."
  else
    (regionStartEnd ds.posIndexS (ds.offsetS st) bin_size?
        region_start? region_end?).bind fun startEnd? =>
    (regionsNonEmptyCheck regions?).bind fun _ =>
    (get_mc_pos ds.mcTypes (ds.rows.map (·.codebook)) ds.posIndexS
        (st.getA ds.aref).context_size (st.getA ds.aref).c_pos mc_type
        (ds.offsetS st)).bind fun pos_idx0 =>
    (intersectRegions regions? pos_idx0).bind fun pos_idx =>
    (fetchPositionsS ds pos_idx st).bind fun baseSt =>
    (binsAndLabels regions? bin_size? startEnd? region_name?
        (st.getA ds.aref).chrom_size).bind fun bl =>
    let dimName := match bl.2.2 with
      | some n => n
      | none => "pos_bins"
    (aggregateRegion pos_idx bl.1 bl.2.1 dimName baseSt.1.posIndexS
        (baseSt.1.rows.map (·.data))
        (((ds.rows.head?).map fun c => c.data.length).getD 0)).bind fun rds =>
    Except.ok (rds, baseSt.2)

end Alias

/-!
Spec-side definitions used by the theorems below: the dataset invariants the
source maintains, projections of `Except` results, and the concrete example
datasets exercised by the witnesses/counterexamples.
-/

namespace DS

/-- The invariants every dataset produced by `open`/`fetch`-family operations
satisfies (each is visible in the source): a continuous dataset has the
implicit position axis (no `pos` coordinate); a non-continuous dataset has
`offset` 0 ("if continuous is False, offset will be 0" in
`_fetch_positions`); an explicit `pos` coordinate is a duplicate-free index
of the same length as the data's `pos` dimension. -/
def WF (ds : DS α) : Prop :=
  (ds.continuous = true → ds.posCoord = none) ∧
  (ds.continuous = false → ds.offset = 0) ∧
  ∀ ps, ds.posCoord = some ps → ps.Nodup ∧ ps.length = ds.rows.length

end DS

/-- A fetch-family result is "not continuous": the error case holds
vacuously (no dataset was returned at all). -/
def sparseResult (x : Except String (DS α)) : Bool :=
  match x with
  | Except.ok r => !r.continuous
  | Except.error _ => true

namespace Alias

/-- The store after running a store-passing operation (unchanged on error). -/
def storeAfter (st : Store) (x : Except String (β × Store)) : Store :=
  match x with
  | Except.ok p => p.2
  | Except.error _ => st

end Alias

/-- Example: a continuous dataset of five opaque rows covering positions
0..4. -/
def exContNat : DS Nat :=
  { posCoord := none, rows := [10, 11, 12, 13, 14], mcTypes := [],
    attrs := { continuous := some true, chrom_size := 5 } }

/-- Example: a sparse dataset holding positions 1 and 3. -/
def exSparseNat : DS Nat :=
  { posCoord := some [1, 3], rows := [21, 23], mcTypes := [],
    attrs := { continuous := some false, chrom_size := 5 } }

/-- Example: the spec's worked chromosome of length 10, continuous, context
size 3, cytosine at pattern offset 0, with CG contexts at positions 1, 4
and 7. -/
def exCellCont : DS Cell :=
  { posCoord := none,
    rows := (List.range 10).map fun (i : Nat) =>
      { data := [(i : Int)],
        codebook := if i = 1 ∨ i = 4 ∨ i = 7 then [1] else [0] },
    mcTypes := ["CGA"],
    attrs := { continuous := some true, chrom_size := 10,
               c_pos := 0, context_size := 3 } }

/-- Example: a continuous dataset whose codebook matches no position. -/
def exCellNoMatch : DS Cell :=
  { posCoord := none,
    rows := (List.range 4).map fun _ => { data := [(1 : Int)], codebook := [0] },
    mcTypes := ["CGA"],
    attrs := { continuous := some true, chrom_size := 4,
               c_pos := 0, context_size := 3 } }

/-- Example: one position carrying codebook values `+1` and `-1` for two
context labels both denoted by the pattern CGN (opposite strands), so the
summed codebook row cancels to zero. -/
def exCellCancel : DS Cell :=
  { posCoord := none,
    rows := [{ data := [(5 : Int)], codebook := [1, -1] }],
    mcTypes := ["CGA", "CGC"],
    attrs := { continuous := some true, chrom_size := 1,
               c_pos := 0, context_size := 3 } }

/-- Example: a one-row regions table covering `[1, 3)` labelled 0. -/
def exDF : RegionsDF :=
  { indexName := some "region", rows := [(0, (1, 3))] }

/-- Example: the aliasing embedding's view of `exCellCont`, its attrs dict at
reference 0 of `exStore`. -/
def exDSRCell : Alias.DSR Cell :=
  { posCoord := none,
    rows := (List.range 10).map fun (i : Nat) =>
      { data := [(i : Int)],
        codebook := if i = 1 ∨ i = 4 ∨ i = 7 then [1] else [0] },
    mcTypes := ["CGA"], aref := 0 }

/-- Example: a one-dict store holding `exCellCont`'s attrs. -/
def exStore : Alias.Store :=
  [{ continuous := some true, chrom_size := 10, c_pos := 0, context_size := 3 }]

/-! ## Helper lemmas -/

/-- The writing loop of `_regions_to_pos`: starting from a buffer whose
remaining capacity equals the total length of the remaining runs, the fold
fills the tail of the buffer with the concatenation of the runs. -/
theorem regions_to_pos_foldl (regions : List (Nat × Nat)) :
    ∀ (buf : List Nat) (cur : Nat),
      buf.length = cur + (regions.map fun r => r.2 - r.1).sum →
      (regions.foldl
        (fun (acc : List Nat × Nat) r =>
          let length := r.2 - r.1
          let vals := List.range' r.1 length
          (acc.1.take acc.2 ++ vals ++ acc.1.drop (acc.2 + length), acc.2 + length))
        (buf, cur)).1
        = buf.take cur ++ regions.flatMap fun r => List.range' r.1 (r.2 - r.1) := by
  induction regions with
  | nil =>
      intro buf cur h
      simp only [List.map_nil, List.sum_nil, Nat.add_zero] at h
      simp [List.take_of_length_le h.le]
  | cons r rest ih =>
      intro buf cur h
      simp only [List.map_cons, List.sum_cons] at h
      have hcur : cur ≤ buf.length := by omega
      have hlenTake : (buf.take cur).length = cur := by
        simp [List.length_take, Nat.min_eq_left hcur]
      have hbuf1 :
          (buf.take cur ++ List.range' r.1 (r.2 - r.1) ++
            buf.drop (cur + (r.2 - r.1))).length
            = (cur + (r.2 - r.1)) + (rest.map fun r => r.2 - r.1).sum := by
        simp only [List.length_append, hlenTake, List.length_range',
          List.length_drop]
        omega
      simp only [List.foldl_cons]
      rw [ih _ _ hbuf1]
      have htake :
          (buf.take cur ++ List.range' r.1 (r.2 - r.1) ++
            buf.drop (cur + (r.2 - r.1))).take (cur + (r.2 - r.1))
            = buf.take cur ++ List.range' r.1 (r.2 - r.1) := by
        have hl : (buf.take cur ++ List.range' r.1 (r.2 - r.1)).length
            = cur + (r.2 - r.1) := by
          simp [List.length_append, hlenTake, List.length_range']
        rw [← hl, List.take_left]
      rw [htake, List.flatMap_cons, List.append_assoc]

/-! ## C3: interval expansion -/

/-- C3: for every array of (start, end) interval pairs with start < end,
`_regions_to_pos` returns an array of length Σ(end−start) that is the
concatenation, in input order, of the runs `start, start+1, …, end−1`,
duplicates from overlapping intervals preserved. -/
theorem c3_regions_to_pos_concat (regions : List (Nat × Nat))
    (_h : ∀ r ∈ regions, r.1 < r.2) :
    _regions_to_pos regions
      = (regions.flatMap fun r => List.range' r.1 (r.2 - r.1)) ∧
    (_regions_to_pos regions).length
      = (regions.map fun r => r.2 - r.1).sum := by
  have h0 := regions_to_pos_foldl regions
    (List.replicate ((regions.map fun r => r.2 - r.1).sum) 0) 0 (by simp)
  have h1 : _regions_to_pos regions
      = regions.flatMap fun r => List.range' r.1 (r.2 - r.1) := by
    unfold _regions_to_pos
    simpa using h0
  refine ⟨h1, ?_⟩
  rw [h1]
  simp [List.length_flatMap, Function.comp_def, List.length_range']

/-- Witness for C3 at the spec's own example `fetch_regions([(2,4),(6,9)])`:
the expansion is `[2,3,6,7,8]` of length `2 + 3`. -/
theorem c3_regions_to_pos_concat_witness :
    (∀ r ∈ [((2 : Nat), (4 : Nat)), (6, 9)], r.1 < r.2) ∧
    _regions_to_pos [(2, 4), (6, 9)]
      = ([(2, 4), (6, 9)].flatMap fun r : Nat × Nat => List.range' r.1 (r.2 - r.1)) ∧
    (_regions_to_pos [(2, 4), (6, 9)]).length
      = ([((2 : Nat), (4 : Nat)), (6, 9)].map fun r => r.2 - r.1).sum :=
  ⟨by decide, c3_regions_to_pos_concat [(2, 4), (6, 9)] (by decide)⟩

/-- `pySlice` at nonnegative in-range bounds is drop-then-take. -/
theorem pySlice_coe (l : List α) (a b : Nat) (hab : a ≤ b) (hb : b ≤ l.length) :
    pySlice l (a : Int) (b : Int) = (l.drop a).take (b - a) := by
  unfold pySlice
  have ha' : ¬ ((a : Int) < 0) := by omega
  have hb' : ¬ ((b : Int) < 0) := by omega
  simp only [if_neg ha', if_neg hb']
  have h1 : min (a : Int) (l.length : Int) = (a : Int) := by
    apply min_eq_left; exact_mod_cast hab.trans hb
  have h2 : min (b : Int) (l.length : Int) = (b : Int) := by
    apply min_eq_left; exact_mod_cast hb
  rw [h1, h2, Int.toNat_ofNat, Int.toNat_ofNat]

/-- Filtering a contiguous run by a window `[s, e)` whose end lies inside the
run gives the contiguous run `[s, e)`. -/
theorem filter_range'_window :
    ∀ (n o s e : Nat), o ≤ s → e ≤ o + n →
      (List.range' o n).filter (fun p => decide (s ≤ p) && decide (p < e))
        = List.range' s (e - s) := by
  intro n
  induction n with
  | zero =>
      intro o s e hos heo
      have : e - s = 0 := by omega
      simp [this]
  | succ n ih =>
      intro o s e hos heo
      rw [List.range'_succ]
      rcases Nat.lt_or_ge o s with hlt | hge
      · rw [List.filter_cons_of_neg (by simp; omega)]
        exact ih (o + 1) s e (by omega) (by omega)
      · have heq : o = s := le_antisymm hos hge
        subst heq
        rcases Nat.lt_or_ge o e with hoe | hoe
        · rw [List.filter_cons_of_pos (by simp [hoe])]
          have he : e - o = (e - (o + 1)) + 1 := by omega
          rw [he, List.range'_succ]
          congr 1
          have hcongr :
              (List.range' (o + 1) n).filter
                  (fun p => decide (o ≤ p) && decide (p < e))
                = (List.range' (o + 1) n).filter
                  (fun p => decide (o + 1 ≤ p) && decide (p < e)) := by
            apply List.filter_congr
            intro p hp
            have hps : o + 1 ≤ p := (List.mem_range'_1.mp hp).1
            simp [Nat.le_of_succ_le hps, hps]
          rw [hcongr]
          exact ih (o + 1) (o + 1) e (le_refl _) (by omega)
        · rw [List.filter_cons_of_neg (by simp; omega)]
          have he : e - o = 0 := by omega
          rw [he, List.range'_zero, List.filter_eq_nil_iff]
          intro p hp
          have hps : o + 1 ≤ p := (List.mem_range'_1.mp hp).1
          simp; omega

/-- Mapping `(· + k)` over `range m` is the run starting at `k`. -/
theorem map_range_add (m k : Nat) :
    (List.range m).map (· + k) = List.range' k m := by
  rw [List.range'_eq_map_range]
  apply List.map_congr_left
  intro a _
  omega

/-! ## C1: continuous range fetch -/

/-- C1: on a continuous dataset, for `offset ≤ start < end ≤ offset + n`
(the requested window inside the source range), `fetch(start, end)` selects
exactly the half-open interval `[start, end)` intersected with the source's
position set, and the result is continuous with `position_offset = start`. -/
theorem c1_fetch_continuous_window (ds : DS α) (start stop : Nat)
    (hc : ds.continuous = true) (hpc : ds.posCoord = none)
    (h1 : ds.offset ≤ start) (h2 : start < stop)
    (h3 : stop ≤ ds.offset + ds.rows.length) :
    (ds.fetch (some start) (some stop)).map DS.genomicPositions
        = Except.ok ((ds.genomicPositions).filter
            (fun p => decide (start ≤ p) && decide (p < stop))) ∧
    (ds.fetch (some start) (some stop)).map DS.continuous = Except.ok true ∧
    (ds.fetch (some start) (some stop)).map DS.offset = Except.ok start := by
  have hfetch : ds.fetch (some start) (some stop)
      = Except.ok (ds.fetchSliceCont start stop) := by
    unfold DS.fetch
    simp [hc, h2]
  have hcast1 : (start : Int) - (ds.offset : Int) = ((start - ds.offset : Nat) : Int) := by
    omega
  have hcast2 : (stop : Int) - (ds.offset : Int) = ((stop - ds.offset : Nat) : Int) := by
    omega
  have hrows : (ds.fetchSliceCont start stop).rows
      = (ds.rows.drop (start - ds.offset)).take
          ((stop - ds.offset) - (start - ds.offset)) := by
    unfold DS.fetchSliceCont
    simp only [hpc, sliceSel]
    rw [hcast1, hcast2, pySlice_coe _ _ _ (by omega) (by omega)]
  have hlen : (ds.fetchSliceCont start stop).rows.length = stop - start := by
    rw [hrows]
    simp only [List.length_take, List.length_drop]
    omega
  have hpc' : (ds.fetchSliceCont start stop).posCoord = none := by
    unfold DS.fetchSliceCont
    simp only [hpc, sliceSel]
  have hoff : (ds.fetchSliceCont start stop).offset = start := by
    unfold DS.fetchSliceCont DS.offset
    simp
  have hcont : (ds.fetchSliceCont start stop).continuous = true := by
    unfold DS.fetchSliceCont DS.continuous
    unfold DS.continuous at hc
    simpa using hc
  have hgenL : (ds.fetchSliceCont start stop).genomicPositions
      = List.range' start (stop - start) := by
    unfold DS.genomicPositions
    rw [hpc', hoff, hlen, map_range_add]
  have hgenR : (ds.genomicPositions).filter
      (fun p => decide (start ≤ p) && decide (p < stop))
      = List.range' start (stop - start) := by
    unfold DS.genomicPositions
    rw [hpc, map_range_add]
    exact filter_range'_window ds.rows.length ds.offset start stop h1 h3
  rw [hfetch, hgenR]
  exact ⟨by simp [Except.map, hgenL], by simp [Except.map, hcont],
    by simp [Except.map, hoff]⟩

/-- Witness for C1: the concrete continuous dataset with rows at positions
0..4, fetched on `[1, 3)`. -/
theorem c1_fetch_continuous_window_witness :
    (let ds : DS Nat := { posCoord := none, rows := [10, 11, 12, 13, 14],
                          mcTypes := [],
                          attrs := { continuous := some true, chrom_size := 5 } }
     (ds.fetch (some 1) (some 3)).map DS.genomicPositions
        = Except.ok ((ds.genomicPositions).filter
            (fun p => decide (1 ≤ p) && decide (p < 3))) ∧
     (ds.fetch (some 1) (some 3)).map DS.continuous = Except.ok true ∧
     (ds.fetch (some 1) (some 3)).map DS.offset = Except.ok 1) :=
  c1_fetch_continuous_window _ 1 3 (by decide) rfl (by decide) (by decide) (by decide)

/-- Folding `Nat.min` never exceeds the initial accumulator. -/
theorem foldl_min_le_init (ps : List Nat) : ∀ a : Nat, ps.foldl Nat.min a ≤ a := by
  induction ps with
  | nil => intro a; simp
  | cons q qs ih =>
      intro a
      simp only [List.foldl_cons]
      exact le_trans (ih (Nat.min a q)) (Nat.min_le_left a q)

/-- Folding `Nat.min` bounds every list element from below. -/
theorem foldl_min_le_mem (ps : List Nat) :
    ∀ a : Nat, ∀ p ∈ ps, ps.foldl Nat.min a ≤ p := by
  induction ps with
  | nil => intro a p hp; simp at hp
  | cons q qs ih =>
      intro a p hp
      simp only [List.foldl_cons]
      rcases List.mem_cons.mp hp with rfl | hp
      · exact le_trans (foldl_min_le_init qs (Nat.min a p)) (Nat.min_le_right a p)
      · exact ih (Nat.min a q) p hp

/-- The fold computing `min(positions)` bounds every element from below. -/
theorem foldl_min_le (p0 : Nat) (ps : List Nat) :
    ∀ p ∈ p0 :: ps, ps.foldl Nat.min p0 ≤ p := by
  intro p hp
  rcases List.mem_cons.mp hp with rfl | hp
  · exact foldl_min_le_init ps p
  · exact foldl_min_le_mem ps p0 p hp

/-- Folding `Nat.max` is at least the initial accumulator. -/
theorem le_foldl_max_init (ps : List Nat) : ∀ a : Nat, a ≤ ps.foldl Nat.max a := by
  induction ps with
  | nil => intro a; simp
  | cons q qs ih =>
      intro a
      simp only [List.foldl_cons]
      exact le_trans (Nat.le_max_left a q) (ih (Nat.max a q))

/-- Folding `Nat.max` bounds every list element from above. -/
theorem le_foldl_max_mem (ps : List Nat) :
    ∀ a : Nat, ∀ p ∈ ps, p ≤ ps.foldl Nat.max a := by
  induction ps with
  | nil => intro a p hp; simp at hp
  | cons q qs ih =>
      intro a p hp
      simp only [List.foldl_cons]
      rcases List.mem_cons.mp hp with rfl | hp
      · exact le_trans (Nat.le_max_right a p) (le_foldl_max_init qs (Nat.max a p))
      · exact ih (Nat.max a q) p hp

/-- The fold computing `max(positions)` bounds every element from above. -/
theorem le_foldl_max (p0 : Nat) (ps : List Nat) :
    ∀ p ∈ p0 :: ps, p ≤ ps.foldl Nat.max p0 := by
  intro p hp
  rcases List.mem_cons.mp hp with rfl | hp
  · exact le_foldl_max_init ps p
  · exact le_foldl_max_mem ps p0 p hp

/-- A `mapM` over `Except` succeeds when every element does. -/
theorem mapM_ok_of_forall {β : Type u} {γ : Type v} (f : β → Except String γ) :
    ∀ (l : List β), (∀ x ∈ l, ∃ y, f x = Except.ok y) →
      ∃ ys, l.mapM f = Except.ok ys := by
  intro l
  induction l with
  | nil => intro _; exact ⟨[], rfl⟩
  | cons a l ih =>
      intro h
      obtain ⟨y, hy⟩ := h a (List.mem_cons_self _ _)
      obtain ⟨ys, hys⟩ := ih fun x hx => h x (List.mem_cons_of_mem _ hx)
      refine ⟨y :: ys, ?_⟩
      rw [List.mapM_cons, hy, hys]
      rfl

/-- `idxGet` succeeds on an in-bounds index. -/
theorem idxGet_ok {α : Type u} (rows : List α) (i : Int)
    (h : 0 ≤ i ∧ i.toNat < rows.length) :
    ∃ y, idxGet rows i = Except.ok y :=
  ⟨rows.get ⟨i.toNat, h.2⟩, dif_pos h⟩

/-- A member of the first component list of a zip of equal lengths appears in
the zip. -/
theorem mem_zip_left {α : Type u} :
    ∀ (ps : List Nat) (rows : List α) (q : Nat),
      ps.length = rows.length → q ∈ ps → ∃ r, (q, r) ∈ ps.zip rows := by
  intro ps
  induction ps with
  | nil => intro rows q _ hq; simp at hq
  | cons p ps ih =>
      intro rows q hlen hq
      cases rows with
      | nil => simp at hlen
      | cons r rows =>
          rcases List.mem_cons.mp hq with rfl | hq
          · exact ⟨r, List.mem_cons_self _ _⟩
          · obtain ⟨r', hr'⟩ := ih rows q (by simpa using hlen) hq
            exact ⟨r', List.mem_cons_of_mem _ hr'⟩

/-- `labelGet` succeeds on a present label of a full-length index. -/
theorem labelGet_ok {α : Type u} (ps : List Nat) (rows : List α) (i : Int)
    (hlen : ps.length = rows.length) (hq : ∃ q ∈ ps, (q : Int) = i) :
    ∃ t, labelGet ps rows i = Except.ok t := by
  obtain ⟨q, hqps, rfl⟩ := hq
  obtain ⟨r, hr⟩ := mem_zip_left ps rows q hlen hqps
  have hsome : ((ps.zip rows).find? (fun t => (t.1 : Int) == (q : Int))).isSome := by
    rw [List.find?_isSome]
    exact ⟨(q, r), hr, by simp⟩
  obtain ⟨t, ht⟩ := Option.isSome_iff_exists.mp hsome
  exact ⟨t, by rw [labelGet, ht]⟩

/-- Positional gather succeeds when every index is in bounds. -/
theorem gatherIdx_none_ok {α : Type} (rows : List α) (idxs : List Int)
    (h : ∀ i ∈ idxs, 0 ≤ i ∧ i.toNat < rows.length) :
    ∃ rw, gatherIdx none rows idxs = Except.ok (none, rw) := by
  obtain ⟨ys, hys⟩ := mapM_ok_of_forall (idxGet rows) idxs
    (fun i hi => idxGet_ok rows i (h i hi))
  refine ⟨ys, ?_⟩
  simp only [gatherIdx, hys]
  rfl

/-- Label gather succeeds on a unique full-length index when every requested
index value is a present label. -/
theorem gatherIdx_some_ok {α : Type} (ps : List Nat) (rows : List α)
    (idxs : List Int) (hnd : ps.Nodup) (hlen : ps.length = rows.length)
    (h : ∀ i ∈ idxs, ∃ q ∈ ps, (q : Int) = i) :
    ∃ pc rw, gatherIdx (some ps) rows idxs = Except.ok (pc, rw) := by
  obtain ⟨ys, hys⟩ := mapM_ok_of_forall (labelGet ps rows) idxs
    (fun i hi => labelGet_ok ps rows i hlen (h i hi))
  refine ⟨some (ys.map (·.1)), ys.map (·.2), ?_⟩
  simp only [gatherIdx, if_pos hnd, hys]
  rfl

/-- Core facts about the continuous arithmetic slice: the implicit position
axis is kept, the new offset is `start`, and the window has `stop - start`
rows. -/
theorem fetchSliceCont_facts {α : Type} (ds : DS α) (start stop : Nat)
    (hpc : ds.posCoord = none) (h1 : ds.offset ≤ start) (h2 : start ≤ stop)
    (h3 : stop ≤ ds.offset + ds.rows.length) :
    (ds.fetchSliceCont start stop).posCoord = none ∧
    (ds.fetchSliceCont start stop).offset = start ∧
    (ds.fetchSliceCont start stop).rows.length = stop - start ∧
    (ds.fetchSliceCont start stop).attrs.continuous = ds.attrs.continuous := by
  have hcast1 : (start : Int) - (ds.offset : Int) = ((start - ds.offset : Nat) : Int) := by
    omega
  have hcast2 : (stop : Int) - (ds.offset : Int) = ((stop - ds.offset : Nat) : Int) := by
    omega
  have hrows : (ds.fetchSliceCont start stop).rows
      = (ds.rows.drop (start - ds.offset)).take
          ((stop - ds.offset) - (start - ds.offset)) := by
    unfold DS.fetchSliceCont
    simp only [hpc, sliceSel]
    rw [hcast1, hcast2, pySlice_coe _ _ _ (by omega) (by omega)]
  refine ⟨?_, ?_, ?_, ?_⟩
  · unfold DS.fetchSliceCont
    simp only [hpc, sliceSel]
  · unfold DS.fetchSliceCont DS.offset
    simp
  · rw [hrows]
    simp only [List.length_take, List.length_drop]
    omega
  · unfold DS.fetchSliceCont
    simp

/-- `_fetch_positions` on an implicitly indexed dataset with all requested
positions inside the window: succeeds, the result's position coordinate is
the sorted requested positions, it is sparse and its offset is 0. -/
theorem _fetchPositions_none_ok {α : Type} (ds : DS α) (P : List Nat)
    (hpc : ds.posCoord = none)
    (hin : ∀ p ∈ P, ds.offset ≤ p ∧ p < ds.offset + ds.rows.length) :
    (ds._fetchPositions P).map DS.genomicPositions
        = Except.ok (P.insertionSort (· ≤ ·)) ∧
    (ds._fetchPositions P).map DS.continuous = Except.ok false ∧
    (ds._fetchPositions P).map DS.offset = Except.ok 0 := by
  have hcond : ∀ i ∈ subOffset ds.offset (P.insertionSort (· ≤ ·)),
      0 ≤ i ∧ i.toNat < ds.rows.length := by
    intro i hi
    simp only [subOffset] at hi
    obtain ⟨p, hp, rfl⟩ := List.mem_map.mp hi
    have hpP : p ∈ P := (List.mem_insertionSort _).mp hp
    have := hin p hpP
    omega
  obtain ⟨rw, hrw⟩ := gatherIdx_none_ok ds.rows _ hcond
  have hfp : ds._fetchPositions P = Except.ok { ds with
      posCoord := some (P.insertionSort (· ≤ ·)), rows := rw,
      attrs := { ds.attrs with continuous := some false, offset := none } } := by
    unfold DS._fetchPositions
    simp only [hpc, hrw]
    rfl
  rw [hfp]
  exact ⟨by simp [Except.map, DS.genomicPositions],
    by simp [Except.map, DS.continuous],
    by simp [Except.map, DS.offset]⟩

/-- `_fetch_positions` on an explicitly indexed (sparse, offset 0) dataset
with all requested positions present in the index: succeeds, with the same
conclusions. -/
theorem _fetchPositions_some_ok {α : Type} (ds : DS α) (P ps : List Nat)
    (hpc : ds.posCoord = some ps) (hnd : ps.Nodup)
    (hlen : ps.length = ds.rows.length) (hoff : ds.offset = 0)
    (hin : ∀ p ∈ P, p ∈ ps) :
    (ds._fetchPositions P).map DS.genomicPositions
        = Except.ok (P.insertionSort (· ≤ ·)) ∧
    (ds._fetchPositions P).map DS.continuous = Except.ok false ∧
    (ds._fetchPositions P).map DS.offset = Except.ok 0 := by
  have hcond : ∀ i ∈ subOffset ds.offset (P.insertionSort (· ≤ ·)),
      ∃ q ∈ ps, (q : Int) = i := by
    intro i hi
    simp only [subOffset] at hi
    obtain ⟨p, hp, rfl⟩ := List.mem_map.mp hi
    refine ⟨p, hin p ((List.mem_insertionSort _).mp hp), ?_⟩
    rw [hoff]
    simp
  obtain ⟨pc, rw, hrw⟩ := gatherIdx_some_ok ps ds.rows _ hnd hlen hcond
  have hfp : ds._fetchPositions P = Except.ok { ds with
      posCoord := some (P.insertionSort (· ≤ ·)), rows := rw,
      attrs := { ds.attrs with continuous := some false, offset := none } } := by
    unfold DS._fetchPositions
    simp only [hpc, hrw]
    rfl
  rw [hfp]
  exact ⟨by simp [Except.map, DS.genomicPositions],
    by simp [Except.map, DS.continuous],
    by simp [Except.map, DS.offset]⟩

/-- A common lower bound of the initial accumulator and all elements bounds
the `Nat.min` fold. -/
theorem le_foldl_min (ps : List Nat) :
    ∀ p c, c ≤ p → (∀ q ∈ ps, c ≤ q) → c ≤ ps.foldl Nat.min p := by
  induction ps with
  | nil => intro p c h _; simpa using h
  | cons q qs ih =>
      intro p c h hall
      simp only [List.foldl_cons]
      exact ih (Nat.min p q) c
        (Nat.le_min.mpr ⟨h, hall q (List.mem_cons_self _ _)⟩)
        (fun r hr => hall r (List.mem_cons_of_mem _ hr))

/-- A common strict upper bound of the initial accumulator and all elements
bounds the `Nat.max` fold. -/
theorem foldl_max_lt (ps : List Nat) :
    ∀ p c, p < c → (∀ q ∈ ps, q < c) → ps.foldl Nat.max p < c := by
  induction ps with
  | nil => intro p c h _; simpa using h
  | cons q qs ih =>
      intro p c h hall
      simp only [List.foldl_cons]
      exact ih (Nat.max p q) c
        (Nat.max_lt.mpr ⟨h, hall q (List.mem_cons_self _ _)⟩)
        (fun r hr => hall r (List.mem_cons_of_mem _ hr))

/-! ## C2: exact position fetch -/

/-- C2 (amended: `P` non-empty): for every non-empty set `P` of positions
inside the dataset's window, `fetch_positions(P)` returns a dataset whose
`genomic_position` coordinate is exactly `P` sorted ascending (duplicates
as given), with `is_continuous = False` and `position_offset = 0`. -/
theorem c2_fetch_positions_sorted {α : Type} (ds : DS α) (P : List Nat)
    (hwf : ds.WF) (hne : P ≠ []) (hin : ∀ p ∈ P, ds.window p) :
    (ds.fetchPositions P).map DS.genomicPositions
        = Except.ok (P.insertionSort (· ≤ ·)) ∧
    (ds.fetchPositions P).map DS.continuous = Except.ok false ∧
    (ds.fetchPositions P).map DS.offset = Except.ok 0 := by
  obtain ⟨hwf1, hwf2, hwf3⟩ := hwf
  cases hcont : ds.continuous with
  | true =>
      have hpc := hwf1 hcont
      have hin' : ∀ p ∈ P, ds.offset ≤ p ∧ p < ds.offset + ds.rows.length := by
        intro p hp
        have hw := hin p hp
        simp only [DS.window, hpc] at hw
        exact hw
      cases P with
      | nil => exact absurd rfl hne
      | cons p ps =>
          have hunf : ds.fetchPositions (p :: ps)
              = (ds.fetchSliceCont (ps.foldl Nat.min p)
                  ((ps.foldl Nat.max p) + 1))._fetchPositions (p :: ps) := by
            unfold DS.fetchPositions
            rw [hcont]
            simp
          have hminlo : ds.offset ≤ ps.foldl Nat.min p :=
            le_foldl_min ps p ds.offset
              (hin' p (List.mem_cons_self _ _)).1
              (fun q hq => (hin' q (List.mem_cons_of_mem _ hq)).1)
          have hmaxhi : ps.foldl Nat.max p < ds.offset + ds.rows.length :=
            foldl_max_lt ps p _
              (hin' p (List.mem_cons_self _ _)).2
              (fun q hq => (hin' q (List.mem_cons_of_mem _ hq)).2)
          have hminmax : ps.foldl Nat.min p ≤ ps.foldl Nat.max p :=
            le_trans (foldl_min_le p ps p (List.mem_cons_self _ _))
              (le_foldl_max p ps p (List.mem_cons_self _ _))
          obtain ⟨hfpc, hfoff, hflen, _⟩ :=
            fetchSliceCont_facts ds (ps.foldl Nat.min p)
              ((ps.foldl Nat.max p) + 1) hpc hminlo (by omega) (by omega)
          have hin'' : ∀ q ∈ p :: ps,
              (ds.fetchSliceCont (ps.foldl Nat.min p)
                ((ps.foldl Nat.max p) + 1)).offset ≤ q ∧
              q < (ds.fetchSliceCont (ps.foldl Nat.min p)
                ((ps.foldl Nat.max p) + 1)).offset +
                (ds.fetchSliceCont (ps.foldl Nat.min p)
                  ((ps.foldl Nat.max p) + 1)).rows.length := by
            intro q hq
            rw [hfoff, hflen]
            have h1 := foldl_min_le p ps q hq
            have h2 := le_foldl_max p ps q hq
            omega
          rw [hunf]
          exact _fetchPositions_none_ok _ (p :: ps) hfpc hin''
  | false =>
      have hoff := hwf2 hcont
      have hunf : ds.fetchPositions P = ds._fetchPositions P := by
        unfold DS.fetchPositions
        rw [hcont]
        simp
      rw [hunf]
      cases hpc : ds.posCoord with
      | none =>
          have hin' : ∀ p ∈ P, ds.offset ≤ p ∧ p < ds.offset + ds.rows.length := by
            intro p hp
            have hw := hin p hp
            simp only [DS.window, hpc] at hw
            exact hw
          exact _fetchPositions_none_ok ds P hpc hin'
      | some ps =>
          obtain ⟨hnd, hlen⟩ := hwf3 ps hpc
          have hin' : ∀ p ∈ P, p ∈ ps := by
            intro p hp
            have hw := hin p hp
            simp only [DS.window, hpc] at hw
            exact hw
          exact _fetchPositions_some_ok ds P ps hpc hnd hlen hoff hin'

/-- C2 counterexample: the claim quantifies over every in-window position
set, but at the empty set on a continuous source `fetch_positions` raises
(`min()` of an empty sequence) instead of returning a dataset. -/
theorem c2_fetch_positions_empty_counterexample :
    exContNat.fetchPositions []
      = Except.error "ValueError: min() arg is an empty sequence" := rfl

/-- Witness for C2 at `P = [4, 0, 2]` on the concrete continuous dataset:
the result's positions are `[0, 2, 4]`, sparse, offset 0. -/
theorem c2_fetch_positions_sorted_witness :
    (exContNat.fetchPositions [4, 0, 2]).map DS.genomicPositions
        = Except.ok ([4, 0, 2].insertionSort (· ≤ ·)) ∧
    (exContNat.fetchPositions [4, 0, 2]).map DS.continuous = Except.ok false ∧
    (exContNat.fetchPositions [4, 0, 2]).map DS.offset = Except.ok 0 :=
  c2_fetch_positions_sorted exContNat [4, 0, 2]
    ⟨fun _ => rfl, fun h => by simp [exContNat, DS.continuous] at h,
      fun ps h => by simp [exContNat] at h⟩
    (by decide) (by decide)

/-- `mapM` over `Except` respects pointwise-equal functions. -/
theorem mapM_congr {β : Type u} {γ : Type v} (f g : β → Except String γ) :
    ∀ (l : List β), (∀ x ∈ l, f x = g x) → l.mapM f = l.mapM g := by
  intro l
  induction l with
  | nil => intro _; rfl
  | cons a l ih =>
      intro h
      rw [List.mapM_cons, List.mapM_cons, h a (List.mem_cons_self _ _),
        ih fun x hx => h x (List.mem_cons_of_mem _ hx)]

/-- A successful `mapM` over `Except` preserves length. -/
theorem mapM_ok_length {β : Type u} {γ : Type v} (f : β → Except String γ) :
    ∀ (l : List β) (ys : List γ), l.mapM f = Except.ok ys → ys.length = l.length := by
  intro l
  induction l with
  | nil =>
      intro ys h
      simp only [List.mapM_nil] at h
      cases h
      rfl
  | cons a l ih =>
      intro ys h
      rw [List.mapM_cons] at h
      cases hfa : f a with
      | error e => rw [hfa] at h; simp [Bind.bind, Except.bind] at h
      | ok y =>
          rw [hfa] at h
          cases hml : l.mapM f with
          | error e =>
              rw [hml] at h
              simp [Bind.bind, Except.bind, Pure.pure] at h
          | ok ys' =>
              rw [hml] at h
              simp only [Bind.bind, Except.bind, Pure.pure, Except.pure] at h
              cases h
              simp [ih ys' hml]

/-- A successful `gatherIdx` returns as many rows as requested indices. -/
theorem gatherIdx_ok_length {α : Type} (pc : Option (List Nat)) (rows : List α)
    (idxs : List Int) (pc' : Option (List Nat)) (rw : List α)
    (h : gatherIdx pc rows idxs = Except.ok (pc', rw)) :
    rw.length = idxs.length := by
  cases pc with
  | none =>
      simp only [gatherIdx] at h
      cases hml : idxs.mapM (idxGet rows) with
      | error e => rw [hml] at h; simp [Bind.bind, Except.bind] at h
      | ok ys =>
          rw [hml] at h
          simp only [Bind.bind, Except.bind] at h
          cases h
          exact mapM_ok_length _ idxs _ hml
  | some ps =>
      simp only [gatherIdx] at h
      by_cases hnd : ps.Nodup
      · rw [if_pos hnd] at h
        cases hml : idxs.mapM (labelGet ps rows) with
        | error e => rw [hml] at h; simp [Bind.bind, Except.bind] at h
        | ok ys =>
            rw [hml] at h
            simp only [Bind.bind, Except.bind] at h
            cases h
            simp [mapM_ok_length _ idxs _ hml]
      · rw [if_neg hnd] at h
        cases h

/-- Subtracting offset 0 is the plain integer coercion. -/
theorem subOffset_zero (ps : List Nat) :
    subOffset 0 ps = ps.map fun (p : Nat) => (p : Int) := by
  unfold subOffset
  apply List.map_congr_left
  intro a _
  simp

/-- Looking every label of a duplicate-free full-length index up in itself
gathers exactly the index zipped with its rows. -/
theorem mapM_labelGet_self {α : Type} :
    ∀ (ps : List Nat) (rows : List α), ps.Nodup → ps.length = rows.length →
      ((ps.map fun (p : Nat) => (p : Int)).mapM (labelGet ps rows))
        = Except.ok (ps.zip rows) := by
  intro ps
  induction ps with
  | nil =>
      intro rows _ _
      rfl
  | cons p ps ih =>
      intro rows hnd hlen
      cases rows with
      | nil => simp at hlen
      | cons r rs =>
          have hndtail : ps.Nodup := (List.nodup_cons.mp hnd).2
          have hpfresh : p ∉ ps := (List.nodup_cons.mp hnd).1
          have hlen' : ps.length = rs.length := by simpa using hlen
          have hhead : labelGet (p :: ps) (r :: rs) (p : Int) = Except.ok (p, r) := by
            unfold labelGet
            rw [List.zip_cons_cons, List.find?_cons_of_pos _ (by simp)]
          have htail : ∀ q ∈ ps,
              labelGet (p :: ps) (r :: rs) (q : Int) = labelGet ps rs (q : Int) := by
            intro q hq
            have hpq : p ≠ q := fun h => hpfresh (h ▸ hq)
            unfold labelGet
            rw [List.zip_cons_cons, List.find?_cons_of_neg _ (by simp [hpq])]
          rw [List.map_cons, List.mapM_cons, hhead]
          have hcongr : (ps.map fun (q : Nat) => (q : Int)).mapM
                (labelGet (p :: ps) (r :: rs))
              = (ps.map fun (q : Nat) => (q : Int)).mapM (labelGet ps rs) := by
            apply mapM_congr
            intro i hi
            obtain ⟨q, hq, rfl⟩ := List.mem_map.mp hi
            exact htail q hq
          simp only [Bind.bind, Except.bind]
          rw [hcongr, ih rs hndtail hlen']
          rfl

/-- Inversion of a successful `_fetch_positions`: the result is the source
with the sorted requested positions as coordinate, gathered rows of matching
length, `continuous = False` and `offset` popped. -/
theorem _fetchPositions_ok_shape {α : Type} (ds : DS α) (P : List Nat) (r : DS α)
    (h : ds._fetchPositions P = Except.ok r) :
    ∃ rw : List α, rw.length = P.length ∧
      r = { ds with
            posCoord := some (P.insertionSort (· ≤ ·)),
            rows := rw,
            attrs := { ds.attrs with
              continuous := some false,
              offset := none } } := by
  have h' : (gatherIdx ds.posCoord ds.rows
      (subOffset ds.offset (P.insertionSort (· ≤ ·)))).bind
      (fun s => Except.ok { ds with
        posCoord := some (P.insertionSort (· ≤ ·)), rows := s.2,
        attrs := { ds.attrs with
          continuous := some false,
          offset := none } }) = Except.ok r := h
  cases hg : gatherIdx ds.posCoord ds.rows
      (subOffset ds.offset (P.insertionSort (· ≤ ·))) with
  | error e =>
      rw [hg] at h'
      exact absurd h' (by simp [Except.bind])
  | ok s =>
      rw [hg] at h'
      simp only [Except.bind] at h'
      cases h'
      refine ⟨s.2, ?_, rfl⟩
      have hlen := gatherIdx_ok_length ds.posCoord ds.rows _ s.1 s.2 (by rw [hg])
      rw [hlen]
      unfold subOffset
      rw [List.length_map, List.length_insertionSort]

/-- Inversion of a successful `fetch_positions`: same shape as
`_fetch_positions` (the continuous pre-fetch only narrows the window the
gather reads from; it does not change the coordinate, attrs or row
count of the final result). -/
theorem fetchPositions_ok_shape {α : Type} (ds : DS α) (P : List Nat) (r : DS α)
    (h : ds.fetchPositions P = Except.ok r) :
    ∃ rw : List α, rw.length = P.length ∧
      r = { ds with
            posCoord := some (P.insertionSort (· ≤ ·)),
            rows := rw,
            attrs := { ds.attrs with
              continuous := some false,
              offset := none } } := by
  unfold DS.fetchPositions at h
  by_cases hcont : ds.continuous
  · rw [if_pos hcont] at h
    cases P with
    | nil => exact Except.noConfusion h
    | cons p ps =>
        obtain ⟨rw, hlen, hr⟩ := _fetchPositions_ok_shape _ (p :: ps) r h
        refine ⟨rw, hlen, ?_⟩
        rw [hr]
        unfold DS.fetchSliceCont
        rfl
  · rw [if_neg hcont] at h
    exact _fetchPositions_ok_shape ds P r h

/-! ## C7: idempotence of fetch_positions -/

/-- C7: `fetch_positions` is idempotent — re-fetching the result's own
`genomic_position` coordinate returns the very same dataset (same position
set and same count values). -/
theorem c7_fetch_positions_idempotent {α : Type} (ds : DS α) (P : List Nat)
    (hwf : ds.WF) (hnd : P.Nodup) (hne : P ≠ []) (hin : ∀ p ∈ P, ds.window p) :
    (do
      let r1 ← ds.fetchPositions P
      r1.fetchPositions r1.genomicPositions) = ds.fetchPositions P := by
  obtain ⟨hmap, _, _⟩ := c2_fetch_positions_sorted ds P hwf hne hin
  cases h1 : ds.fetchPositions P with
  | error e =>
      rw [h1] at hmap
      simp [Except.map] at hmap
  | ok r1 =>
      obtain ⟨rw, hlenrw, hr1⟩ := fetchPositions_ok_shape ds P r1 h1
      simp only [Bind.bind, Except.bind]
      have hsorted : List.Sorted (· ≤ ·) (P.insertionSort (· ≤ ·)) :=
        List.sorted_insertionSort _ P
      have hms : (P.insertionSort (· ≤ ·)).insertionSort (· ≤ ·) = P.insertionSort (· ≤ ·) :=
        List.Sorted.insertionSort_eq hsorted
      have hndsorted : (P.insertionSort (· ≤ ·)).Nodup :=
        ((List.perm_insertionSort _ P).nodup_iff).mpr hnd
      have hpc1 : r1.posCoord = some (P.insertionSort (· ≤ ·)) := by rw [hr1]
      have hrows1 : r1.rows = rw := by rw [hr1]
      have hcont1 : r1.continuous = false := by simp [DS.continuous, hr1]
      have hoff1 : r1.offset = 0 := by simp [DS.offset, hr1]
      have hgen1 : r1.genomicPositions = P.insertionSort (· ≤ ·) := by
        unfold DS.genomicPositions
        rw [hpc1]
      have hlen2 : (P.insertionSort (· ≤ ·)).length = r1.rows.length := by
        rw [List.length_insertionSort, hrows1, hlenrw]
      rw [hgen1]
      unfold DS.fetchPositions
      rw [hcont1]
      simp only [Bool.false_eq_true, if_false]
      have hstep : r1._fetchPositions (P.insertionSort (· ≤ ·))
          = (gatherIdx r1.posCoord r1.rows (subOffset r1.offset
              ((P.insertionSort (· ≤ ·)).insertionSort (· ≤ ·)))).bind
            (fun s => Except.ok { r1 with
              posCoord := some ((P.insertionSort (· ≤ ·)).insertionSort (· ≤ ·)),
              rows := s.2,
              attrs := { r1.attrs with
                continuous := some false,
                offset := none } }) := rfl
      have hlen3 : (P.insertionSort (· ≤ ·)).length = r1.rows.length := by
        rw [List.length_insertionSort, hrows1, hlenrw]
      rw [hstep, hms, hpc1, hoff1, subOffset_zero]
      simp only [gatherIdx, if_pos hndsorted]
      simp only [Bind.bind, Except.bind]
      rw [mapM_labelGet_self (P.insertionSort (· ≤ ·)) r1.rows hndsorted hlen3]
      simp only [Except.bind]
      rw [List.map_snd_zip _ _ (le_of_eq hlen3.symm)]
      rw [hr1]

/-- Witness for C7 at `P = [4, 0, 2]` on the concrete continuous dataset. -/
theorem c7_fetch_positions_idempotent_witness :
    (do
      let r1 ← exContNat.fetchPositions [4, 0, 2]
      r1.fetchPositions r1.genomicPositions)
      = exContNat.fetchPositions [4, 0, 2] :=
  c7_fetch_positions_idempotent exContNat [4, 0, 2]
    ⟨fun _ => rfl, fun h => by simp [exContNat, DS.continuous] at h,
      fun ps h => by simp [exContNat] at h⟩
    (by decide) (by decide) (by decide)

/-! ## C8: sparseness is absorbing -/

/-- Every `fetch_positions` call yields a non-continuous dataset whenever it
yields one at all. -/
theorem fetchPositions_sparse {α : Type} (ds : DS α) (P : List Nat) :
    sparseResult (ds.fetchPositions P) = true := by
  cases h : ds.fetchPositions P with
  | error e => simp [sparseResult]
  | ok r =>
      obtain ⟨rw, _, hr⟩ := fetchPositions_ok_shape ds P r h
      simp [sparseResult, hr, DS.continuous]

/-- Every `fetch_regions` call yields a non-continuous dataset whenever it
yields one at all. -/
theorem fetchRegions_sparse {α : Type} (ds : DS α) (regs : List (Nat × Nat)) :
    sparseResult (ds.fetchRegions regs) = true := by
  unfold DS.fetchRegions
  by_cases he : regs.isEmpty
  · rw [if_pos he]
    simp [sparseResult]
  · rw [if_neg he]
    cases h : ds.fetchPositions (_regions_to_pos regs) with
    | error e => simp [Except.bind, sparseResult]
    | ok obj =>
        simp only [Except.bind]
        by_cases hc : obj.continuous
        · rw [if_pos hc]
          simp [sparseResult]
        · rw [if_neg hc]
          by_cases ho : obj.offset ≠ 0
          · rw [if_pos ho]
            simp [sparseResult]
          · rw [if_neg ho]
            simp only [sparseResult]
            simp at hc
            simp [hc]

/-- C8: sparseness is absorbing — on any dataset with `is_continuous =
False`, each of `fetch`, `fetch_regions` and `fetch_positions` returns a
dataset with `is_continuous = False` whenever it returns one. -/
theorem c8_sparse_absorbing {α : Type} (ds : DS α) (hc : ds.continuous = false)
    (start? stop? : Option Nat) (regs : List (Nat × Nat)) (P : List Nat) :
    sparseResult (ds.fetch start? stop?) = true ∧
    sparseResult (ds.fetchRegions regs) = true ∧
    sparseResult (ds.fetchPositions P) = true := by
  refine ⟨?_, fetchRegions_sparse ds regs, fetchPositions_sparse ds P⟩
  unfold DS.fetch
  by_cases hsome : (start?.isSome || stop?.isSome) = true
  · rw [if_pos hsome]
    by_cases hlt : start?.getD 0 < stop?.getD ds.attrs.chrom_size
    · rw [if_pos hlt, hc]
      simp only [Bool.false_eq_true, if_false]
      exact fetchRegions_sparse ds _
    · rw [if_neg hlt]
      simp [sparseResult]
  · rw [if_neg hsome]
    simp [sparseResult]

/-- Witness for C8 on the concrete sparse dataset with positions `{1, 3}`:
a range fetch, a region fetch and a position fetch each stay sparse. -/
theorem c8_sparse_absorbing_witness :
    sparseResult (exSparseNat.fetch (some 1) (some 3)) = true ∧
    sparseResult (exSparseNat.fetchRegions [(1, 4)]) = true ∧
    sparseResult (exSparseNat.fetchPositions [3, 1]) = true :=
  c8_sparse_absorbing exSparseNat rfl (some 1) (some 3) [(1, 4)] [3, 1]

/-! ## C4: codebook pattern matching -/

/-- A successful pattern validation returns the uppercased pattern. -/
theorem validate_ok_inv (cs cp : Nat) (pat p : String)
    (h : _validate_mc_pattern cs cp pat = Except.ok p) : p = pyUpper pat := by
  simp only [_validate_mc_pattern] at h
  split at h
  · cases h
  · split at h
    · cases h
    · cases h
      rfl

/-- For a list with at most one nonzero entry, a nonzero sum is the same as
some entry being nonzero (no cancellation is possible). -/
theorem sum_ne_zero_iff_any (l : List Int)
    (h : (l.filter fun v => v != 0).length ≤ 1) :
    decide (l.sum ≠ 0) = l.any fun v => v != 0 := by
  induction l with
  | nil => simp
  | cons x xs ih =>
      by_cases hx : x = 0
      · subst hx
        have hf : ((0 : Int) :: xs).filter (fun v => v != 0)
            = xs.filter fun v => v != 0 := by
          rw [List.filter_cons_of_neg (by simp)]
        rw [hf] at h
        have := ih h
        simp only [List.sum_cons, List.any_cons]
        simpa using this
      · have hf : ((x : Int) :: xs).filter (fun v => v != 0)
            = x :: xs.filter (fun v => v != 0) := by
          rw [List.filter_cons_of_pos (by simp [hx])]
        rw [hf] at h
        simp only [List.length_cons] at h
        have hnil : xs.filter (fun v => v != 0) = [] :=
          List.length_eq_zero.mp (by omega)
        have hall : ∀ v ∈ xs, v = 0 := by
          intro v hv
          by_contra hv0
          have : v ∈ xs.filter (fun v => v != 0) :=
            List.mem_filter.mpr ⟨hv, by simp [hv0]⟩
          rw [hnil] at this
          simp at this
        have hsum : xs.sum = 0 := List.sum_eq_zero hall
        simp [List.sum_cons, hsum, hx]

/-- C4 (amended: no two selected context labels are simultaneously nonzero at
one position — true of real codebooks, where each position has a single
context): the match mask marks a position as matching if and only if some
context label denoted by the pattern has a nonzero codebook value there, and
`get_mc_pos` returns exactly the (offset-shifted) positions so marked. -/
theorem c4_match_mask_amended (mcTypes : List String) (cbRows : List (List Int))
    (cs cp : Nat) (pattern : String) (posIdx : List Nat) (off : Nat)
    (hone : ∀ row ∈ cbRows,
      ((selectedCodebook mcTypes (parse_mc_pattern (pyUpper pattern)) row).filter
        (fun v => v != 0)).length ≤ 1)
    (hv : _validate_mc_pattern cs cp pattern = Except.ok (pyUpper pattern)) :
    get_mc_pos_bool mcTypes cbRows cs cp pattern
      = Except.ok (cbRows.map fun row =>
          (selectedCodebook mcTypes (parse_mc_pattern (pyUpper pattern)) row).any
            fun v => v != 0) ∧
    get_mc_pos mcTypes cbRows posIdx cs cp pattern off
      = Except.ok ((((posIdx.zip (cbRows.map fun row =>
          (selectedCodebook mcTypes (parse_mc_pattern (pyUpper pattern)) row).any
            fun v => v != 0)).filter (·.2)).map (·.1)).map (· + off)) := by
  have hbool : get_mc_pos_bool mcTypes cbRows cs cp pattern
      = Except.ok (cbRows.map fun row =>
          (selectedCodebook mcTypes (parse_mc_pattern (pyUpper pattern)) row).any
            fun v => v != 0) := by
    unfold get_mc_pos_bool
    simp only [hv, Bind.bind, Except.bind]
    congr 1
    apply List.map_congr_left
    intro row hrow
    exact sum_ne_zero_iff_any _ (hone row hrow)
  refine ⟨hbool, ?_⟩
  unfold get_mc_pos
  simp only [hbool, Bind.bind, Except.bind]

/-- C4 counterexample: with codebook values `+1` (label CGA) and `-1` (label
CGC) at one position, both labels denoted by CGN, the summed mask is zero, so
the code marks the position as NOT matching although a selected label's value
is nonzero — the claimed "if and only if" fails. -/
theorem c4_match_mask_counterexample :
    get_mc_pos_bool exCellCancel.mcTypes (exCellCancel.rows.map (·.codebook))
        exCellCancel.attrs.context_size exCellCancel.attrs.c_pos "CGN"
      = Except.ok [false] ∧
    (selectedCodebook exCellCancel.mcTypes (parse_mc_pattern "CGN")
        ((exCellCancel.rows.map (·.codebook)).getD 0 [])).any
      (fun v => v != 0) = true := by
  constructor
  · rfl
  · rfl

/-- Witness for C4 (amended) at the spec's worked example dataset (one
context label, CG positions 1, 4, 7, pattern CGN, offset 0). -/
theorem c4_match_mask_amended_witness :
    get_mc_pos_bool exCellCont.mcTypes (exCellCont.rows.map (·.codebook))
        exCellCont.attrs.context_size exCellCont.attrs.c_pos "CGN"
      = Except.ok ((exCellCont.rows.map (·.codebook)).map fun row =>
          (selectedCodebook exCellCont.mcTypes
            (parse_mc_pattern (pyUpper "CGN")) row).any fun v => v != 0) ∧
    get_mc_pos exCellCont.mcTypes (exCellCont.rows.map (·.codebook))
        exCellCont.posIndex exCellCont.attrs.context_size
        exCellCont.attrs.c_pos "CGN" 0
      = Except.ok ((((exCellCont.posIndex.zip
          ((exCellCont.rows.map (·.codebook)).map fun row =>
            (selectedCodebook exCellCont.mcTypes
              (parse_mc_pattern (pyUpper "CGN")) row).any fun v => v != 0)).filter
          (·.2)).map (·.1)).map (· + 0)) :=
  c4_match_mask_amended exCellCont.mcTypes (exCellCont.rows.map (·.codebook))
    exCellCont.attrs.context_size exCellCont.attrs.c_pos "CGN"
    exCellCont.posIndex 0 (by decide) rfl

/-! ## C5: binning-argument validation of get_region_ds -/

/-- C5 (amended: only the neither-given case is rejected by the validation,
and no call supplying `regions` ever succeeds): `get_region_ds` fails with
the missing-binning-spec error when neither `bin_size` nor `regions` is
supplied; there is no exclusivity check for supplying both — such a call
passes the argument validation and fails only later, with the numba
`TypingError` that every `regions`-supplying call (with or without
`bin_size`) hits when the DataFrame reaches the jitted `_regions_to_pos`. -/
theorem c5_get_region_ds_validation (ds : DS Cell) (mc : String)
    (b? : Option Nat) (df : RegionsDF) (rn : Option String)
    (rs re : Option Nat) :
    ds.getRegionDS mc none none rn rs re
      = Except.error "ValueError: One of bin_size or regions must be specified." ∧
    (ds.getRegionDS mc b? (some df) rn rs re).isOk = false := by
  refine ⟨rfl, ?_⟩
  unfold DS.getRegionDS
  have hnn : (b?.isNone && (some df : Option RegionsDF).isNone) = false := by
    simp
  rw [hnn]
  simp only [Bool.false_eq_true, if_false]
  cases hse : regionStartEnd ds.posIndex ds.offset b? rs re with
  | error e => simp [Except.bind, Except.isOk, Except.toBool]
  | ok se =>
      simp only [Except.bind]
      cases hck : regionsNonEmptyCheck (some df) with
      | error e => simp [Except.isOk, Except.toBool]
      | ok u =>
          simp only
          cases hmc : ds.getMcPos mc ds.offset with
          | error e => simp [Except.isOk, Except.toBool]
          | ok pos_idx0 =>
              simp only [intersectRegions, Except.bind]
              simp [Except.isOk, Except.toBool]

/-- C5 counterexample: the claim says a call supplying BOTH `bin_size` and
`regions` is rejected by the exactly-one validation, but on a concrete
dataset such a call passes the validation and fails instead with the numba
`TypingError` from the regions path — and a call supplying exactly one
(`regions` alone), which the claimed validation would accept, fails with the
very same error. -/
theorem c5_get_region_ds_both_counterexample :
    exCellCont.getRegionDS "CGN" (some 5) (some exDF) none none none
      = Except.error "TypingError: cannot determine Numba type of pandas DataFrame passed to _regions_to_pos" ∧
    exCellCont.getRegionDS "CGN" none (some exDF) none none none
      = Except.error "TypingError: cannot determine Numba type of pandas DataFrame passed to _regions_to_pos" :=
  ⟨rfl, rfl⟩

/-! ## C6: empty candidate set in get_region_ds -/

/-- C6 failing input: on a continuous chromosome whose codebook matches no
position for the pattern, `get_region_ds(pattern, bin_size=2)` raises
`ValueError` from `min()` of the empty candidate set inside
`fetch_positions`, before the zero-filled "border case" branch is ever
reached — instead of returning the claimed all-zero dataset. -/
theorem c6_empty_candidate_crash :
    exCellNoMatch.getRegionDS "CGN" (some 2) none none none none
      = Except.error "ValueError: min() arg is an empty sequence" := rfl

/-! ## C10: the bin_size > 1 assertion -/

/-- C10: with `regions` omitted and any `bin_size ≤ 1`, `get_region_ds`
fails with the `bin_size` assertion for every dataset, pattern and optional
region bounds — the assertion fires before any position selection or
aggregation can happen (the error is the assertion's even on datasets where
the later steps would themselves fail). -/
theorem c10_bin_size_assert (ds : DS Cell) (mc : String) (b : Nat)
    (hb : b ≤ 1) (rn : Option String) (rs re : Option Nat) :
    ds.getRegionDS mc (some b) none rn rs re
      = Except.error "AssertionError: bin_size must be greater than 1." := by
  unfold DS.getRegionDS
  have h1 : ¬ 1 < b := by omega
  simp [h1, regionStartEnd, Except.bind]

/-- Witness for C10 at `bin_size = 1` on the spec's worked example dataset
(whose later steps would succeed with a valid bin size). -/
theorem c10_bin_size_assert_witness :
    exCellCont.getRegionDS "CGN" (some 1) none none none none
      = Except.error "AssertionError: bin_size must be greater than 1." :=
  c10_bin_size_assert exCellCont "CGN" 1 (by decide) none none none

/-! ## C9: the fetch family never mutates the source's attrs dict -/

namespace Alias

/-- The store transition of the continuous-slice fetch: every dict that
existed before is untouched (the write lands on the fresh copy). -/
theorem fetchSliceContS_preserves {α : Type} (ds : DSR α) (start stop : Nat)
    (st : Store) (i : Nat) (hi : i < st.length) :
    (fetchSliceContS ds start stop st).2.get? i = st.get? i := by
  unfold fetchSliceContS Store.copyAttrs
  simp only
  rw [List.get?_set_ne _ _ (by omega)]
  rw [List.get?_append hi]

/-- The continuous-slice fetch only appends one dict to the store. -/
theorem fetchSliceContS_length {α : Type} (ds : DSR α) (start stop : Nat)
    (st : Store) :
    (fetchSliceContS ds start stop st).2.length = st.length + 1 := by
  unfold fetchSliceContS Store.copyAttrs
  simp

/-- The store transition of `_fetch_positions`: old dicts untouched. -/
theorem _fetchPositionsS_preserves {α : Type} (ds : DSR α) (P : List Nat)
    (st : Store) (i : Nat) (hi : i < st.length) :
    (storeAfter st (_fetchPositionsS ds P st)).get? i = st.get? i := by
  unfold _fetchPositionsS Store.copyAttrs
  cases hg : gatherIdx ds.posCoord ds.rows
      (subOffset (ds.offsetS st) (P.insertionSort (· ≤ ·))) with
  | error e =>
      simp only [hg, Bind.bind, Except.bind, storeAfter]
  | ok s =>
      simp only [hg, Bind.bind, Except.bind, storeAfter]
      rw [List.get?_set_ne _ _ (by omega)]
      rw [List.get?_append hi]

/-- The store transition of `fetch_positions`: old dicts untouched. -/
theorem fetchPositionsS_preserves {α : Type} (ds : DSR α) (P : List Nat)
    (st : Store) (i : Nat) (hi : i < st.length) :
    (storeAfter st (fetchPositionsS ds P st)).get? i = st.get? i := by
  unfold fetchPositionsS
  by_cases hc : ds.continuousS st
  · rw [if_pos hc]
    cases P with
    | nil => simp [storeAfter]
    | cons p ps =>
        simp only
        have h1 := fetchSliceContS_preserves ds (ps.foldl Nat.min p)
          ((ps.foldl Nat.max p) + 1) st i hi
        have h2 := _fetchPositionsS_preserves
          (fetchSliceContS ds (ps.foldl Nat.min p)
            ((ps.foldl Nat.max p) + 1) st).1 (p :: ps)
          (fetchSliceContS ds (ps.foldl Nat.min p)
            ((ps.foldl Nat.max p) + 1) st).2 i
          (by rw [fetchSliceContS_length]; omega)
        cases hfp : _fetchPositionsS
            (fetchSliceContS ds (ps.foldl Nat.min p)
              ((ps.foldl Nat.max p) + 1) st).1 (p :: ps)
            (fetchSliceContS ds (ps.foldl Nat.min p)
              ((ps.foldl Nat.max p) + 1) st).2 with
        | error e =>
            simp only [hfp, storeAfter]
        | ok r =>
            rw [hfp] at h2
            simp only [storeAfter] at h2 ⊢
            rw [h2, h1]
  · rw [if_neg hc]
    exact _fetchPositionsS_preserves ds P st i hi

/-- The store transition of `fetch_regions`: old dicts untouched. -/
theorem fetchRegionsS_preserves {α : Type} (ds : DSR α)
    (regs : List (Nat × Nat)) (st : Store) (i : Nat) (hi : i < st.length) :
    (storeAfter st (fetchRegionsS ds regs st)).get? i = st.get? i := by
  unfold fetchRegionsS
  by_cases he : regs.isEmpty
  · rw [if_pos he]
    simp [storeAfter]
  · rw [if_neg he]
    have h1 := fetchPositionsS_preserves ds (_regions_to_pos regs) st i hi
    cases hfp : fetchPositionsS ds (_regions_to_pos regs) st with
    | error e => simp [Except.bind, storeAfter]
    | ok r =>
        rw [hfp] at h1
        simp only [Except.bind]
        by_cases hc : r.1.continuousS r.2
        · rw [if_pos hc]
          simp [storeAfter]
        · rw [if_neg hc]
          by_cases ho : r.1.offsetS r.2 ≠ 0
          · rw [if_pos ho]
            simp [storeAfter]
          · rw [if_neg ho]
            simpa [storeAfter] using h1

/-- The store transition of `fetch`: old dicts untouched. -/
theorem fetchS_preserves {α : Type} (ds : DSR α) (s? e? : Option Nat)
    (st : Store) (i : Nat) (hi : i < st.length) :
    (storeAfter st (fetchS ds s? e? st)).get? i = st.get? i := by
  unfold fetchS
  by_cases hsome : (s?.isSome || e?.isSome) = true
  · rw [if_pos hsome]
    by_cases hlt : s?.getD 0 < e?.getD (st.getA ds.aref).chrom_size
    · rw [if_pos hlt]
      by_cases hc : ds.continuousS st
      · rw [if_pos hc]
        simp only [storeAfter]
        exact fetchSliceContS_preserves ds _ _ st i hi
      · rw [if_neg hc]
        exact fetchRegionsS_preserves ds _ st i hi
    · rw [if_neg hlt]
      simp [storeAfter]
  · rw [if_neg hsome]
    simp [storeAfter]

/-- The store transition of `select_mc_type`: old dicts untouched. -/
theorem selectMcTypeS_preserves (ds : DSR Cell) (pat : String)
    (st : Store) (i : Nat) (hi : i < st.length) :
    (storeAfter st (selectMcTypeS ds pat st)).get? i = st.get? i := by
  unfold selectMcTypeS
  cases hg : get_mc_pos ds.mcTypes (ds.rows.map (·.codebook)) ds.posIndexS
      (st.getA ds.aref).context_size (st.getA ds.aref).c_pos
      pat (ds.offsetS st) with
  | error e => simp [Except.bind, storeAfter]
  | ok pos =>
      simp only [Except.bind]
      have h1 := fetchPositionsS_preserves ds pos st i hi
      cases hfp : fetchPositionsS ds pos st with
      | error e => simp [Except.bind, storeAfter]
      | ok r =>
          rw [hfp] at h1
          simp only [Except.bind]
          by_cases hc : r.1.continuousS r.2
          · rw [if_pos hc]
            simp [storeAfter]
          · rw [if_neg hc]
            simpa [storeAfter] using h1

/-- Binding a store-less `Except` step preserves any store property of the
continuation. -/
theorem storeAfter_bind_pure {β γ : Type} (st : Store) (i : Nat)
    (x : Except String β) (f : β → Except String (γ × Store))
    (h : ∀ b, (storeAfter st (f b)).get? i = st.get? i) :
    (storeAfter st (x.bind f)).get? i = st.get? i := by
  cases x with
  | error e => simp [Except.bind, storeAfter]
  | ok b =>
      simp only [Except.bind]
      exact h b

/-- Binding the store-passing step: if the step preserves the store reads
and every success of the continuation returns the step's own store, the
whole bind preserves the store reads. -/
theorem storeAfter_bind_tail {β γ : Type} (st : Store) (i : Nat)
    (x : Except String (β × Store))
    (hx : (storeAfter st x).get? i = st.get? i)
    (f : β × Store → Except String (γ × Store))
    (hf : ∀ r v st', f r = Except.ok (v, st') → st' = r.2) :
    (storeAfter st (x.bind f)).get? i = st.get? i := by
  cases x with
  | error e => simp [Except.bind, storeAfter]
  | ok r =>
      simp only [Except.bind]
      cases hfr : f r with
      | error e => simp [storeAfter]
      | ok p =>
          have hst' : p.2 = r.2 := hf r p.1 p.2 (by rw [hfr])
          simp only [storeAfter] at hx ⊢
          rw [hst']
          exact hx

/-- The store transition of `get_region_ds`: old dicts untouched (the only
attribute writes happen inside its `fetch_positions` call). -/
theorem getRegionDSS_preserves (ds : DSR Cell) (mt : String) (b? : Option Nat)
    (df? : Option RegionsDF) (rn? : Option String) (rs? re? : Option Nat)
    (st : Store) (i : Nat) (hi : i < st.length) :
    (storeAfter st (getRegionDSS ds mt b? df? rn? rs? re? st)).get? i
      = st.get? i := by
  unfold getRegionDSS
  by_cases hnn : (b?.isNone && df?.isNone) = true
  · rw [if_pos hnn]
    simp [storeAfter]
  · rw [if_neg hnn]
    apply storeAfter_bind_pure
    intro se
    apply storeAfter_bind_pure
    intro _
    apply storeAfter_bind_pure
    intro pos_idx0
    apply storeAfter_bind_pure
    intro pos_idx
    apply storeAfter_bind_tail
    · exact fetchPositionsS_preserves ds _ st i hi
    · intro r v st' hf
      cases hbl : binsAndLabels df? b? se rn? (st.getA ds.aref).chrom_size with
      | error e =>
          rw [hbl] at hf
          simp only [Except.bind] at hf
          cases hf
      | ok bl =>
          rw [hbl] at hf
          simp only [Except.bind] at hf
          cases hag : aggregateRegion pos_idx bl.1
              bl.2.1 (match bl.2.2 with | some n => n | none => "pos_bins")
              r.1.posIndexS (r.1.rows.map (·.data))
              (((ds.rows.head?).map fun c => c.data.length).getD 0) with
          | error e =>
              rw [hag] at hf
              simp only [Except.bind] at hf
              cases hf
          | ok rds =>
              rw [hag] at hf
              simp only [Except.bind] at hf
              cases hf
              rfl

end Alias

/-- C9: no fetch-family operation mutates its source dataset: with the attrs
dictionaries held in an explicit store (the `sel` result aliases the
source's dict until `attrs.copy()` replaces it), every dict that existed
before a `fetch`, `fetch_regions`, `fetch_positions`, `select_mc_type` or
`get_region_ds` call — in particular the source's own, holding its
continuous flag and offset — reads back unchanged afterwards; the result is
a new value (the position coordinate and rows are immutable values in this
embedding). -/
theorem c9_fetch_family_no_mutation (ds : Alias.DSR Cell) (st : Alias.Store)
    (i : Nat) (hi : i < st.length) (s? e? : Option Nat)
    (regs : List (Nat × Nat)) (P : List Nat) (pat mt : String)
    (b? : Option Nat) (df? : Option RegionsDF) (rn? : Option String)
    (rs? re? : Option Nat) :
    (Alias.storeAfter st (Alias.fetchS ds s? e? st)).get? i = st.get? i ∧
    (Alias.storeAfter st (Alias.fetchRegionsS ds regs st)).get? i = st.get? i ∧
    (Alias.storeAfter st (Alias.fetchPositionsS ds P st)).get? i = st.get? i ∧
    (Alias.storeAfter st (Alias.selectMcTypeS ds pat st)).get? i = st.get? i ∧
    (Alias.storeAfter st
      (Alias.getRegionDSS ds mt b? df? rn? rs? re? st)).get? i = st.get? i :=
  ⟨Alias.fetchS_preserves ds s? e? st i hi,
   Alias.fetchRegionsS_preserves ds regs st i hi,
   Alias.fetchPositionsS_preserves ds P st i hi,
   Alias.selectMcTypeS_preserves ds pat st i hi,
   Alias.getRegionDSS_preserves ds mt b? df? rn? rs? re? st i hi⟩

/-- Witness for C9 on the worked example dataset and its one-dict store:
after each of the five operations, the source's attrs dict (reference 0)
reads back unchanged. -/
theorem c9_fetch_family_no_mutation_witness :
    (Alias.storeAfter exStore
      (Alias.fetchS exDSRCell (some 1) (some 3) exStore)).get? 0
        = exStore.get? 0 ∧
    (Alias.storeAfter exStore
      (Alias.fetchRegionsS exDSRCell [(1, 3)] exStore)).get? 0
        = exStore.get? 0 ∧
    (Alias.storeAfter exStore
      (Alias.fetchPositionsS exDSRCell [1, 4] exStore)).get? 0
        = exStore.get? 0 ∧
    (Alias.storeAfter exStore
      (Alias.selectMcTypeS exDSRCell "CGN" exStore)).get? 0
        = exStore.get? 0 ∧
    (Alias.storeAfter exStore
      (Alias.getRegionDSS exDSRCell "CGN" (some 5) none none none none
        exStore)).get? 0 = exStore.get? 0 :=
  c9_fetch_family_no_mutation exDSRCell exStore 0 (by decide) (some 1) (some 3)
    [(1, 3)] [1, 4] "CGN" "CGN" (some 5) none none none none
